import Mathlib

/-!
Shallow embedding of the Disgram repository's forwarding core.

Worker side (src/webhook.py): `log_message`, `is_message_logged`,
`scrapeTelegramMessageBox` (its retry/logging skeleton), `sendMessage`,
`sendMissingMessages` and the per-record body of `main`'s while-loop.
Supervisor side (src/main.py): `initialize_disgram_log` (here `initDisgramLog`,
renamed only because of a lexical restriction of this development),
`extract_channel_name`, `check_process_health` counts, `check_log_freshness`,
the dead-process liveness sweep, the zombie restart decision and
`start_job_processes` / `start_bot_processes`.

Modelling conventions:
* `Disgram.log` is a list of `LogEntry`.  Each constructor stands for one
  exact line template that `log_message` (or `jobs.py`, or the supervisor's
  seeding) appends with a `log_type` in `error`/`new_message`/`status`;
  templates whose `log_type` is `info`/`status2` never reach the file and
  therefore have no constructor.
* `entryMatch c e` is the result of `re.search(rf"https://t.me/{c}/(\d+)", line)`
  on the rendered line of `e`: the templates that interpolate a message link
  yield that link's number when the channels agree, all other templates
  contain no `https://t.me/<c>/<digits>` substring and yield `none`.
  A seed line is the configured URL verbatim, so the search succeeds exactly
  when the URL starts with `https://t.me/<c>/` followed by a digit.
* Network effects are an oracle `ok : Link → Nat → Bool` telling whether the
  webhook send of the given link succeeds at the given attempt index; a
  `false` is `requests.exceptions.RequestException` raised by `webhook.send`.
* `main`'s per-record loop only processes hrefs that `re.match` the anchored
  pattern `https://t.me/{channel}/(\d+)`; `RawLink.canonical ch n` stands for
  an href of exactly that shape, `RawLink.other` for any href that does not
  match (it is skipped by `continue`).
* The trace of Forwarder invocations (`invs`) records every call of
  `sendMessage`, i.e. every link handed to the Forwarder, in order.
* An exception escaping the per-cycle `try` is modelled by `errAfter = some k`:
  the first `k` records were processed, then the `except` branch logs the
  `[   E R R O R   ]` line and the loop continues; `msg_log = msg_temp` is
  skipped in that case, exactly as in the source.
-/

namespace Disgram

/-- A message link `https://t.me/<channel>/<number>` in the canonical form
that `main` and `sendMissingMessages` construct and match. -/
structure Link where
  channel : String
  number : Nat
deriving DecidableEq

/-- The rendered URL of a link, as interpolated into log lines and posts. -/
def linkUrl (l : Link) : String :=
  "https://t.me/" ++ l.channel ++ "/" ++ toString l.number

/-- One line of Disgram.log.  Each constructor is one template written by the
code with a file-reaching `log_type` (webhook.py `log_message`) or by the
supervisor's seeding (`initialize_disgram_log` writes the raw URL line). -/
inductive LogEntry where
  /-- A verbatim configured channel URL appended by the supervisor's log
  seeding (src/main.py lines 84-87). -/
  | seed (url : String)
  /-- "Error scraping Telegram: ..." (log_type error). -/
  | errorScraping
  /-- "Max retries reached. Skipping this iteration." (log_type error). -/
  | maxRetriesSkipping
  /-- "Sending message to Discord: {msg_link}" (log_type new_message). -/
  | sendingMessage (l : Link)
  /-- "Message sent successfully." (log_type new_message). -/
  | messageSent
  /-- "Error sending message to Discord: ..." (log_type error). -/
  | errorSending
  /-- "Max retries reached. Message not sent." (log_type error). -/
  | maxRetriesNotSent
  /-- "No parseable content to send. Sending message link" (log_type error). -/
  | noParseable
  /-- "Sending placeholder for missing message: {missing_link}" (log_type error). -/
  | placeholder (l : Link)
  /-- "New message found: {msg_link}" (log_type new_message). -/
  | newMessageFound (l : Link)
  /-- "Bot working for {tg_channel}. Time passed: ..." (log_type status). -/
  | botWorking (channel : String)
  /-- "[   E R R O R   ] ..." from main's outermost except (log_type error). -/
  | cycleError
deriving DecidableEq

/-- Value of the digit run `ds` read as a decimal number, as `int` does. -/
def digitsVal (ds : List Char) : Nat :=
  ds.foldl (fun a ch => a * 10 + (ch.toNat - 48)) 0

/-- Structural test that `pre` is a prefix of `s` (character lists; used to
keep every string primitive kernel-computable). -/
def charsPrefix : List Char → List Char → Bool
  | [], _ => true
  | _ :: _, [] => false
  | a :: as, b :: bs => a == b && charsPrefix as bs

/-- `s.startswith(pre)` on Python strings. -/
def strStarts (s pre : String) : Bool :=
  charsPrefix pre.data s.data

/-- Python `s.split(sep)` for a one-character separator. -/
def splitChars (sep : Char) : List Char → List (List Char)
  | [] => [[]]
  | a :: as =>
    let r := splitChars sep as
    if a == sep then [] :: r
    else (a :: r.headD []) :: r.tail

/-- Python `pat in s` on character lists. -/
def containsPat (pat : List Char) : List Char → Bool
  | [] => charsPrefix pat []
  | a :: as => charsPrefix pat (a :: as) || containsPat pat as

/-- Result of `re.search(rf"https://t.me/{c}/(\d+)", url)` on a raw URL line:
the line is the URL itself, so the pattern matches exactly when the URL
starts with `https://t.me/<c>/` and a digit follows. -/
def seedMatch (c : String) (url : String) : Option Nat :=
  let pref := "https://t.me/" ++ c ++ "/"
  if charsPrefix pref.data url.data then
    let ds := (url.data.drop pref.data.length).takeWhile Char.isDigit
    if ds.isEmpty then none else some (digitsVal ds)
  else none

/-- `re.search(rf"https://t.me/{c}/(\d+)", line)` on the rendered line of an
entry: only the templates interpolating a message link (and raw seed lines)
can contain `https://t.me/<c>/<digits>`. -/
def entryMatch (c : String) : LogEntry → Option Nat
  | .seed url => seedMatch c url
  | .sendingMessage l => if l.channel = c then some l.number else none
  | .placeholder l => if l.channel = c then some l.number else none
  | .newMessageFound l => if l.channel = c then some l.number else none
  | _ => none

/-- `is_message_logged(channel, number)` (src/webhook.py lines 24-35): scan
every line; return True iff some line matches the channel's link pattern with
a matched number `>= number`.  A missing file is the empty list. -/
def isMessageLogged (log : List LogEntry) (c : String) (n : Nat) : Bool :=
  log.any fun e =>
    match entryMatch c e with
    | some m => decide (n ≤ m)
    | none => false

/-- Send-success oracle: whether `webhook.send` for this link succeeds at the
given attempt index (0-based); `false` raises RequestException. -/
abbrev Oracle := Link → Nat → Bool

/-- A Discord post performed (or attempted) by `sendMessage`. -/
inductive SendAction where
  /-- An embed card for the message (description/image as extracted). -/
  | embedPost (l : Link) (text : Option String) (image : Option String)
  /-- The minimal fallback post: content
  "Unable to parse the message due to attached media and/or document.
  [Message Link](<linkUrl l>)". -/
  | fallbackPost (l : Link)
deriving DecidableEq

/-- The fallback content sent when neither text nor image was extracted
(src/webhook.py line 148). -/
def fallbackContent (l : Link) : String :=
  "Unable to parse the message due to attached media and/or document. [Message Link]("
    ++ linkUrl l ++ ")"

/-- Everything one call of `sendMessage` produces: the log lines it appends,
the posts it attempts (one per retry attempt), and the backoff sleeps taken
between failed attempts (`retry_delay` starts at 2 and doubles). -/
structure SendResult where
  entries : List LogEntry
  acts : List SendAction
  sleeps : List Nat
deriving DecidableEq

/-- Python truthiness of an optional string (`if msg_text ...`): `None` and
`""` are falsy. -/
def truthy : Option String → Bool
  | none => false
  | some s => !(s == "")

/-- The retry loop of `sendMessage` (src/webhook.py lines 128-164).
`attempt` is the 0-based attempt index, `delay` the current `retry_delay`,
`fuel` the number of attempts still allowed (`max_retries - attempt`).
When neither text nor image is truthy, each attempt logs the
no-parseable-content line and posts the fallback content; otherwise each
attempt logs "Sending message to Discord: {link}" BEFORE sending, and logs
"Message sent successfully." after a successful send.  A failed attempt logs
the send error; the last failed attempt additionally logs
"Max retries reached. Message not sent." and the call returns normally. -/
def sendMessageLoop (ok : Oracle) (l : Link) (t im : Option String) :
    Nat → Nat → Nat → SendResult
  | _, _, 0 => ⟨[], [], []⟩
  | attempt, delay, fuel + 1 =>
    if truthy t || truthy im then
      if ok l attempt then
        ⟨[.sendingMessage l, .messageSent], [.embedPost l t im], []⟩
      else if fuel = 0 then
        ⟨[.sendingMessage l, .errorSending, .maxRetriesNotSent], [.embedPost l t im], []⟩
      else
        let r := sendMessageLoop ok l t im (attempt + 1) (delay * 2) fuel
        ⟨[.sendingMessage l, .errorSending] ++ r.entries, .embedPost l t im :: r.acts,
          delay :: r.sleeps⟩
    else
      if ok l attempt then
        ⟨[.noParseable], [.fallbackPost l], []⟩
      else if fuel = 0 then
        ⟨[.noParseable, .errorSending, .maxRetriesNotSent], [.fallbackPost l], []⟩
      else
        let r := sendMessageLoop ok l t im (attempt + 1) (delay * 2) fuel
        ⟨[.noParseable, .errorSending] ++ r.entries, .fallbackPost l :: r.acts,
          delay :: r.sleeps⟩

/-- `sendMessage` with `max_retries = 5` and `retry_delay = 2`. -/
def sendMessage (ok : Oracle) (l : Link) (t im : Option String) : SendResult :=
  sendMessageLoop ok l t im 0 2 5

/-- Log lines and Forwarder invocations of a gap-fill pass. -/
structure GapResult where
  entries : List LogEntry
  invs : List Link
deriving DecidableEq

/-- `sendMissingMessages(channel, last_number, current_number, ...)`
(src/webhook.py lines 167-171): for each missing number in
`range(last_number + 1, current_number)` it logs the placeholder line and
invokes `sendMessage` with no text and no image. -/
def sendMissingMessages (ok : Oracle) (c : String) (last cur : Nat) : GapResult :=
  let ks := List.range' (last + 1) (cur - (last + 1))
  { entries := ks.flatMap fun k =>
      LogEntry.placeholder ⟨c, k⟩ :: (sendMessage ok ⟨c, k⟩ none none).entries,
    invs := ks.map fun k => ⟨c, k⟩ }

/-- A raw `href` as returned by `getLink`: either of the canonical shape
`https://t.me/<channel>/<number>` that `main`'s anchored `re.match` accepts,
or anything else (skipped by `continue`). -/
inductive RawLink where
  | canonical (channel : String) (number : Nat)
  | other (s : String)
deriving DecidableEq

/-- `re.match(rf"https://t.me/{c}/(\d+)", msg_link)` in `main`
(src/webhook.py line 190). -/
def matchNumber (c : String) : RawLink → Option Nat
  | .canonical ch n => if ch = c then some n else none
  | .other _ => none

/-- One scraped message block after the extractor ran on it: `getLink` result
plus the optional extracted fields that influence the pipeline. -/
structure TgBox where
  link : Option RawLink
  text : Option String
  image : Option String
deriving DecidableEq

/-- In-memory worker state of `main` (src/webhook.py lines 174-218):
the Delivery Log contents, `last_processed_number` and `msg_log`. -/
structure WorkerState where
  log : List LogEntry
  lastProcessed : Nat
  msgLog : List Link
deriving DecidableEq

/-- Accumulator while the for-loop over scraped boxes runs: worker state,
the `msg_temp` being built, and the trace of Forwarder invocations. -/
structure CycleAcc where
  st : WorkerState
  temp : List Link
  invs : List Link
deriving DecidableEq

/-- The gap-fill guard of `main` (src/webhook.py lines 200-201): placeholders
are sent only when `last_processed_number > 0` and
`current_number > last_processed_number + 1`. -/
def gapOf (ok : Oracle) (c : String) (last cur : Nat) : GapResult :=
  if 0 < last ∧ last + 1 < cur then sendMissingMessages ok c last cur
  else ⟨[], []⟩

/-- The body of `main`'s for-loop once a record's number is known
(src/webhook.py lines 199-216): gap-fill first, then the dedup check against
the (just-extended) log, then the `msg_log` membership check, the
"New message found" line, the `sendMessage` call, `msg_temp` appends and the
`last_processed_number` update.  The dedup `continue` happens before the
`last_processed_number` update, exactly as in the source. -/
def processNum (ok : Oracle) (c : String) (acc : CycleAcc) (cur : Nat)
    (t im : Option String) : CycleAcc :=
  let s := acc.st
  let gap := gapOf ok c s.lastProcessed cur
  let log1 := s.log ++ gap.entries
  if isMessageLogged log1 c cur then
    { st := ⟨log1, s.lastProcessed, s.msgLog⟩,
      temp := acc.temp, invs := acc.invs ++ gap.invs }
  else
    let l : Link := ⟨c, cur⟩
    if l ∈ s.msgLog then
      { st := ⟨log1, cur, s.msgLog⟩,
        temp := acc.temp ++ [l], invs := acc.invs ++ gap.invs }
    else
      { st := ⟨log1 ++ (LogEntry.newMessageFound l :: (sendMessage ok l t im).entries),
               cur, s.msgLog⟩,
        temp := acc.temp ++ [l, l],
        invs := acc.invs ++ gap.invs ++ [l] }

/-- One iteration of `main`'s for-loop over scraped boxes (src/webhook.py
lines 184-216): skip boxes without a link and boxes whose link does not match
the channel pattern, otherwise run `processNum`. -/
def processBox (ok : Oracle) (c : String) (acc : CycleAcc) (box : TgBox) : CycleAcc :=
  match box.link with
  | none => acc
  | some raw =>
    match matchNumber c raw with
    | none => acc
    | some cur => processNum ok c acc cur box.text box.image

/-- The whole for-loop over a cycle's scraped boxes. -/
def processBoxes (ok : Oracle) (c : String) (acc : CycleAcc) (boxes : List TgBox) :
    CycleAcc :=
  boxes.foldl (processBox ok c) acc

/-- Log lines produced by `scrapeTelegramMessageBox`'s retry loop
(src/webhook.py lines 38-56) when the first `failures` fetch attempts raise:
each failed attempt logs the scrape error; if all 5 fail the skip line is
logged and the cycle sees no boxes. -/
def scrapeEntries (failures : Nat) : List LogEntry :=
  List.replicate (min failures 5) LogEntry.errorScraping ++
    (if 5 ≤ failures then [LogEntry.maxRetriesSkipping] else [])

/-- The external events of one cycle of `main`'s while-loop: how many fetch
attempts fail, what the page contains, and whether an exception escapes the
per-cycle try after `errAfter` records (none = the cycle completes). -/
structure CycleInput where
  fetchFailures : Nat
  boxes : List TgBox
  errAfter : Option Nat
deriving DecidableEq

/-- One iteration of `main`'s while-loop (src/webhook.py lines 180-225):
scrape (with its own retries), process the boxes, assign `msg_log = msg_temp`
and log the status line — or, if an exception escapes after `k` records, log
the `[   E R R O R   ]` line and keep `msg_log` unchanged.  Either way the
iteration ends in the cooldown sleep and the loop continues.  Returns the new
state and the cycle's Forwarder-invocation trace. -/
def runCycle (ok : Oracle) (c : String) (s : WorkerState) (inp : CycleInput) :
    WorkerState × List Link :=
  let boxes := if 5 ≤ inp.fetchFailures then [] else inp.boxes
  let s0 : WorkerState := ⟨s.log ++ scrapeEntries inp.fetchFailures, s.lastProcessed, s.msgLog⟩
  match inp.errAfter with
  | none =>
    let acc := processBoxes ok c ⟨s0, [], []⟩ boxes
    (⟨acc.st.log ++ [LogEntry.botWorking c], acc.st.lastProcessed, acc.temp⟩, acc.invs)
  | some k =>
    let acc := processBoxes ok c ⟨s0, [], []⟩ (boxes.take k)
    (⟨acc.st.log ++ [LogEntry.cycleError], acc.st.lastProcessed, s.msgLog⟩, acc.invs)

/-- The worker's while-loop over a finite prefix of cycles, concatenating the
Forwarder-invocation traces. -/
def runWorker (ok : Oracle) (c : String) : WorkerState → List CycleInput →
    WorkerState × List Link
  | s, [] => (s, [])
  | s, inp :: rest =>
    let r := runCycle ok c s inp
    let r' := runWorker ok c r.1 rest
    (r'.1, r.2 ++ r'.2)

/-- A fresh worker process (src/webhook.py line 174-178): empty `msg_log`,
`last_processed_number = 0`, over whatever Delivery Log already exists. -/
def freshWorker (log : List LogEntry) : WorkerState := ⟨log, 0, []⟩

/-! ### Supervisor side (src/main.py) -/

/-- A forwarding job as stored by the registry (src/jobs.py `Job`). -/
structure Job where
  jobName : String
  webhookUrl : String
  telegramChannels : List String
  threadId : Option String
  embedColor : Option String
deriving DecidableEq

/-- Python truthiness of `job.threadId` (`if job.threadId:`): `None` and `""`
are falsy. -/
def hasThread (job : Job) : Bool :=
  match job.threadId with
  | none => false
  | some t => !(t == "")

/-- Python `str.isdigit()`: nonempty and all digits. -/
def isDigitsChars (cs : List Char) : Bool :=
  !cs.isEmpty && cs.all Char.isDigit

/-- `extract_channel_name(channel_url)` (src/main.py lines 90-98): strip the
13-character "https://t.me/" leader and keep the first path segment. -/
def extract_channel_name (url : String) : String :=
  if strStarts url "https://t.me/" then ⟨(splitChars '/' (url.data.drop 13)).headD []⟩
  else url

/-- The channel parameter chosen by `start_job_processes` (src/main.py lines
619-629): the full URL when it contains "/s/" or looks like a message link
(exactly 4 slashes and a numeric last path segment), the bare channel name
otherwise. -/
def channelParam (url : String) : String :=
  if containsPat "/s/".data url.data ||
      (url.data.count '/' == 4 && isDigitsChars ((splitChars '/' url.data).getLastD [])) then
    url
  else extract_channel_name url

/-- Script and the four positional arguments `start_job_processes` spawns a
worker with (src/main.py lines 631-648): threadhook with the
`?thread_id=`-suffixed webhook when the job has a thread, webhook.py
otherwise; embed color defaults to the empty string. -/
def startScriptArgs (job : Job) (ch : String) : String × List String :=
  if hasThread job then
    ("threadhook.py",
      [channelParam ch, job.webhookUrl ++ "?thread_id=" ++ job.threadId.getD "",
        job.embedColor.getD "", job.jobName])
  else
    ("webhook.py",
      [channelParam ch, job.webhookUrl, job.embedColor.getD "", job.jobName])

/-- Script and arguments used when the liveness sweep respawns a dead process
(src/main.py lines 736-756): always the extracted channel name, never the
full message link. -/
def respawnScriptArgs (job : Job) (ch : String) : String × List String :=
  let cn := extract_channel_name ch
  if hasThread job then
    ("threadhook.py",
      [cn, job.webhookUrl ++ "?thread_id=" ++ job.threadId.getD "",
        job.embedColor.getD "", job.jobName])
  else
    ("webhook.py", [cn, job.webhookUrl, job.embedColor.getD "", job.jobName])

/-- The argument-count gate of webhook.py's `__main__` (src/webhook.py lines
227-230): the worker proceeds past validation iff `len(sys.argv) == 2`,
i.e. exactly one positional argument besides the script name; otherwise it
prints the usage line and exits with status 1. -/
def webhookAccepts (argv : List String) : Bool :=
  argv.length == 2

/-- A tracked worker subprocess: the script and argument vector it was
spawned with, its OS handle identity, and whether `poll()` reports it alive. -/
structure Proc where
  script : String
  args : List String
  pid : Nat
  alive : Bool
deriving DecidableEq

/-- The processes `start_job_processes` spawns for a job, one per channel in
order (src/main.py lines 619-650); `pid0 + i` models the fresh OS handles. -/
def startJobProcs (job : Job) (pid0 : Nat) : List Proc :=
  job.telegramChannels.enum.map fun p =>
    ⟨(startScriptArgs job p.2).1, (startScriptArgs job p.2).2, pid0 + p.1, true⟩

/-- `start_job_processes` on the supervisor's table (src/main.py lines
606-655): a warning no-op when the job already has tracked processes,
otherwise append the job's freshly spawned process list. -/
def startJobProcesses (table : List (String × List Proc)) (job : Job) (pid0 : Nat) :
    List (String × List Proc) :=
  if job.jobName ∈ table.map Prod.fst then table
  else table ++ [(job.jobName, startJobProcs job pid0)]

/-- `start_bot_processes`' spawning pass (src/main.py lines 686-692):
`start_job_processes` once for every job of the registry, in order, starting
from the (cleared) table. -/
def start_bot_processes (registry : List Job) (pid0 : Nat) : List (String × List Proc) :=
  registry.foldl (fun tbl job => startJobProcesses tbl job pid0) []

/-- What the sweep does to the tracked process at absolute index `idx`
(src/main.py lines 736-758): alive processes are left untouched; a dead one
is replaced in place by a respawn with the extracted channel name of the
channel at the same index, provided that index is within the job's channel
list. -/
def sweepOne (job : Job) (pid0 : Nat) (idx : Nat) (p : Proc) : Proc :=
  if p.alive then p
  else if idx < job.telegramChannels.length then
    ⟨(respawnScriptArgs job (job.telegramChannels.getD idx "")).1,
      (respawnScriptArgs job (job.telegramChannels.getD idx "")).2, pid0 + idx, true⟩
  else p

/-- The per-job dead-process sweep (src/main.py lines 722-758), walking the
job's process list with its index. -/
def sweepGo (job : Job) (pid0 : Nat) : Nat → List Proc → List Proc
  | _, [] => []
  | i, p :: ps => sweepOne job pid0 i p :: sweepGo job pid0 (i + 1) ps

/-- The sweep over the whole table (src/main.py lines 723-758): entries whose
job was deleted from the registry are dropped, the others have their dead
processes respawned in place. -/
def superviseJobs (registry : List Job) (pid0 : Nat)
    (table : List (String × List Proc)) : List (String × List Proc) :=
  table.filterMap fun jp =>
    match registry.find? (fun j => j.jobName == jp.1) with
    | none => none
    | some job => some (jp.1, sweepGo job pid0 0 jp.2)

/-- `check_process_health()` without a job name (src/main.py lines 122-136):
the number of processes whose `poll()` is None. -/
def aliveCount (table : List (String × List Proc)) : Nat :=
  (table.map fun jp => (jp.2.filter (fun p => p.alive)).length).sum

/-- Total number of tracked processes. -/
def totalCount (table : List (String × List Proc)) : Nat :=
  (table.map fun jp => jp.2.length).sum

/-- `check_log_freshness` (src/main.py lines 158-180): fresh iff the log file
exists and its age is at most 6 minutes; a missing file (or an error) reports
not fresh. -/
def check_log_freshness (mtimeAge : Option Nat) : Bool :=
  match mtimeAge with
  | none => false
  | some age => decide (age ≤ 6)

/-- One pass of the supervisor's 30-second loop body after the dead-process
sweep (src/main.py lines 722-768): compute overall alive count, check log
freshness, and when the log is stale while at least one process is alive,
tear everything down and respawn every registry job (`restart_all_processes`
clears the table and calls `start_bot_processes`).  Returns the new table and
whether the fleet-wide restart fired. -/
def superviseStep (registry : List Job) (pid0 : Nat)
    (table : List (String × List Proc)) (mtimeAge : Option Nat) :
    List (String × List Proc) × Bool :=
  let t1 := superviseJobs registry pid0 table
  if !check_log_freshness mtimeAge && decide (0 < aliveCount t1) then
    (start_bot_processes registry pid0, true)
  else (t1, false)

/-- `initialize_disgram_log` (src/main.py lines 65-87, renamed here): collect
the existing raw-URL lines (those starting with "https://t.me/"), then append
each configured channel URL of each job, in registry order, that is neither
among those lines nor already queued, verbatim as its own line. -/
def initDisgramLog (log : List LogEntry) (jobs : List Job) : List LogEntry :=
  let existing := log.filterMap fun e =>
    match e with
    | .seed u => if strStarts u "https://t.me/" then some u else none
    | _ => none
  let newLinks := (jobs.flatMap fun j => j.telegramChannels).foldl
    (fun acc ch => if ch ∈ existing ∨ ch ∈ acc then acc else acc ++ [ch]) []
  log ++ newLinks.map LogEntry.seed

/-! ### Specification-side predicates used to state the claims -/

/-- Whether the rendered line of `e` stays strictly below `n` on channel `c`:
true when the line does not mention a `c`-link at all, or mentions one with a
number `< n`. -/
def entryBelow (c : String) (n : Nat) (e : LogEntry) : Bool :=
  match entryMatch c e with
  | some m => decide (m < n)
  | none => true

/-- Every `c`-link number mentioned anywhere in the log is `< n`. -/
def logBound (c : String) (n : Nat) (log : List LogEntry) : Prop :=
  ∀ e ∈ log, entryBelow c n e = true

/-- Some line of the log mentions the `c`-link with number exactly `n`. -/
def loggedNum (c : String) (n : Nat) (log : List LogEntry) : Prop :=
  ∃ e ∈ log, entryMatch c e = some n

/-- Number of log lines mentioning the `c`-link with number exactly `v` —
the count of "delivery entries" for that message link in the sense of the
spec's line classification. -/
def matchCount (c : String) (v : Nat) (log : List LogEntry) : Nat :=
  log.countP fun e => decide (entryMatch c e = some v)

/-- The reachable-state invariant of a single worker writing its channel's
lines: when `last_processed_number` is positive it is the largest `c`-link
number mentioned in the log and is itself mentioned; every remembered
`msg_log` link is a `c`-link already mentioned in the log. -/
def WInv (c : String) (s : WorkerState) : Prop :=
  (0 < s.lastProcessed →
    loggedNum c s.lastProcessed s.log ∧ logBound c (s.lastProcessed + 1) s.log)
  ∧ ∀ l ∈ s.msgLog, l.channel = c ∧ loggedNum c l.number s.log

/-- The analogous invariant for the in-cycle accumulator: the state invariant
plus every `msg_temp` link being a logged `c`-link. -/
def AccInv (c : String) (acc : CycleAcc) : Prop :=
  WInv c acc.st ∧ ∀ l ∈ acc.temp, l.channel = c ∧ loggedNum c l.number acc.st.log

/-- A scrape box of the canonical shape `main` processes. -/
def mkBox (c : String) (n : Nat) (t im : Option String) : TgBox :=
  ⟨some (.canonical c n), t, im⟩

instance (c : String) (n : Nat) (log : List LogEntry) : Decidable (loggedNum c n log) :=
  inferInstanceAs (Decidable (∃ e ∈ log, entryMatch c e = some n))

instance (c : String) (n : Nat) (log : List LogEntry) : Decidable (logBound c n log) :=
  inferInstanceAs (Decidable (∀ e ∈ log, entryBelow c n e = true))

instance (c : String) (s : WorkerState) : Decidable (WInv c s) := by
  unfold WInv
  exact inferInstance

instance (c : String) (acc : CycleAcc) : Decidable (AccInv c acc) := by
  unfold AccInv
  exact inferInstance

/-! ## Basic lemmas about the log predicates -/

theorem entryBelow_eq_true_iff (c : String) (n : Nat) (e : LogEntry) :
    entryBelow c n e = true ↔ ∀ m, entryMatch c e = some m → m < n := by
  unfold entryBelow
  cases h : entryMatch c e <;> simp

theorem logBound_append {c : String} {n : Nat} {L1 L2 : List LogEntry} :
    logBound c n (L1 ++ L2) ↔ logBound c n L1 ∧ logBound c n L2 := by
  unfold logBound
  constructor
  · intro h
    exact ⟨fun e he => h e (List.mem_append_left _ he),
      fun e he => h e (List.mem_append_right _ he)⟩
  · intro h e he
    rcases List.mem_append.mp he with h' | h'
    · exact h.1 e h'
    · exact h.2 e h'

theorem logBound_mono {c : String} {n n' : Nat} (h : n ≤ n') {L : List LogEntry}
    (hb : logBound c n L) : logBound c n' L := by
  intro e he
  rw [entryBelow_eq_true_iff] at *
  intro m hm
  exact lt_of_lt_of_le ((entryBelow_eq_true_iff c n e).mp (hb e he) m hm) h

theorem logBound_nil (c : String) (n : Nat) : logBound c n [] := by
  intro e he
  simp at he

theorem loggedNum_lt {c : String} {n m : Nat} {L : List LogEntry}
    (hb : logBound c n L) (hl : loggedNum c m L) : m < n := by
  obtain ⟨e, he, hm⟩ := hl
  exact (entryBelow_eq_true_iff c n e).mp (hb e he) m hm

theorem loggedNum_append_left {c : String} {n : Nat} {L1 : List LogEntry}
    (L2 : List LogEntry) (h : loggedNum c n L1) : loggedNum c n (L1 ++ L2) := by
  obtain ⟨e, he, hm⟩ := h
  exact ⟨e, List.mem_append_left _ he, hm⟩

theorem loggedNum_append_right {c : String} {n : Nat} (L1 : List LogEntry)
    {L2 : List LogEntry} (h : loggedNum c n L2) : loggedNum c n (L1 ++ L2) := by
  obtain ⟨e, he, hm⟩ := h
  exact ⟨e, List.mem_append_right _ he, hm⟩

theorem isMessageLogged_eq_false_iff {log : List LogEntry} {c : String} {n : Nat} :
    isMessageLogged log c n = false ↔ logBound c n log := by
  unfold isMessageLogged logBound
  rw [← Bool.not_eq_true, List.any_eq_true]
  constructor
  · intro h e he
    rw [entryBelow_eq_true_iff]
    intro m hm
    by_contra hlt
    exact h ⟨e, he, by simp [hm]; omega⟩
  · rintro h ⟨e, he, hme⟩
    have := (entryBelow_eq_true_iff c n e).mp (h e he)
    cases hm : entryMatch c e with
    | none => simp [hm] at hme
    | some m =>
      have := this m hm
      simp [hm] at hme
      omega

theorem isMessageLogged_eq_true_of {log : List LogEntry} {c : String} {n m : Nat}
    {e : LogEntry} (he : e ∈ log) (hm : entryMatch c e = some m) (hn : n ≤ m) :
    isMessageLogged log c n = true := by
  unfold isMessageLogged
  rw [List.any_eq_true]
  exact ⟨e, he, by simp [hm, hn]⟩

theorem isMessageLogged_eq_true_of_loggedNum {log : List LogEntry} {c : String}
    {n : Nat} (h : loggedNum c n log) : isMessageLogged log c n = true := by
  obtain ⟨e, he, hm⟩ := h
  exact isMessageLogged_eq_true_of he hm (le_refl n)

theorem matchCount_append (c : String) (v : Nat) (L1 L2 : List LogEntry) :
    matchCount c v (L1 ++ L2) = matchCount c v L1 + matchCount c v L2 :=
  List.countP_append _ _ _

theorem matchCount_cons (c : String) (v : Nat) (e : LogEntry) (L : List LogEntry) :
    matchCount c v (e :: L) =
      matchCount c v L + (if entryMatch c e = some v then 1 else 0) := by
  unfold matchCount
  rw [List.countP_cons]
  split <;> simp_all

theorem matchCount_nil (c : String) (v : Nat) : matchCount c v [] = 0 := rfl

theorem matchCount_eq_zero_of_logBound {c : String} {n v : Nat} {L : List LogEntry}
    (hb : logBound c n L) (hv : n ≤ v) : matchCount c v L = 0 := by
  unfold matchCount
  rw [List.countP_eq_zero]
  intro e he
  have := (entryBelow_eq_true_iff c n e).mp (hb e he) v
  simp only [decide_eq_true_eq]
  intro hm
  exact absurd (this hm) (by omega)

/-! ## Lemmas about `sendMessage` -/

theorem sendMessageLoop_entries_mem {ok : Oracle} {l : Link} {t im : Option String} :
    ∀ {f att d : Nat} {e : LogEntry},
      e ∈ (sendMessageLoop ok l t im att d f).entries →
      e = .sendingMessage l ∨ e = .messageSent ∨ e = .errorSending ∨
        e = .maxRetriesNotSent ∨ e = .noParseable := by
  intro f
  induction f with
  | zero => intro att d e h; simp [sendMessageLoop] at h
  | succ f ih =>
    intro att d e h
    unfold sendMessageLoop at h
    by_cases h1 : (truthy t || truthy im) = true
    · rw [if_pos h1] at h
      by_cases h2 : ok l att = true
      · rw [if_pos h2] at h
        simp only [List.mem_cons, List.not_mem_nil, or_false] at h
        rcases h with h | h <;> subst h <;> tauto
      · rw [if_neg h2] at h
        by_cases h3 : f = 0
        · rw [if_pos h3] at h
          simp only [List.mem_cons, List.not_mem_nil, or_false] at h
          rcases h with h | h | h <;> subst h <;> tauto
        · rw [if_neg h3] at h
          simp only [List.cons_append, List.nil_append, List.mem_cons] at h
          rcases h with h | h | h
          · subst h; tauto
          · subst h; tauto
          · exact ih h
    · rw [if_neg h1] at h
      by_cases h2 : ok l att = true
      · rw [if_pos h2] at h
        simp only [List.mem_cons, List.not_mem_nil, or_false] at h
        subst h; tauto
      · rw [if_neg h2] at h
        by_cases h3 : f = 0
        · rw [if_pos h3] at h
          simp only [List.mem_cons, List.not_mem_nil, or_false] at h
          rcases h with h | h | h <;> subst h <;> tauto
        · rw [if_neg h3] at h
          simp only [List.cons_append, List.nil_append, List.mem_cons] at h
          rcases h with h | h | h
          · subst h; tauto
          · subst h; tauto
          · exact ih h

theorem sendEntries_match {ok : Oracle} {l : Link} {t im : Option String}
    {c : String} {m : Nat} {e : LogEntry} (he : e ∈ (sendMessage ok l t im).entries)
    (hm : entryMatch c e = some m) : l.channel = c ∧ l.number = m := by
  rcases sendMessageLoop_entries_mem he with h | h | h | h | h <;> subst h
  · simp only [entryMatch] at hm
    split at hm
    · exact ⟨by assumption, Option.some.inj hm⟩
    · exact absurd hm (by simp)
  · simp [entryMatch] at hm
  · simp [entryMatch] at hm
  · simp [entryMatch] at hm
  · simp [entryMatch] at hm

theorem sendEntries_logBound {ok : Oracle} {l : Link} {t im : Option String}
    {c : String} {n : Nat} (h : l.number < n) :
    logBound c n (sendMessage ok l t im).entries := by
  intro e he
  rw [entryBelow_eq_true_iff]
  intro m hm
  obtain ⟨_, h2⟩ := sendEntries_match he hm
  omega

theorem sendEntries_matchCount {ok : Oracle} {l : Link} {t im : Option String}
    {c : String} {v : Nat} (h : v ≠ l.number) :
    matchCount c v (sendMessage ok l t im).entries = 0 := by
  unfold matchCount
  rw [List.countP_eq_zero]
  intro e he
  simp only [decide_eq_true_eq]
  intro hm
  exact h ((sendEntries_match he hm).2).symm

theorem sendMessageLoop_fallback_entries_mem {ok : Oracle} {l : Link}
    {t im : Option String} (hb : (truthy t || truthy im) = false) :
    ∀ {f att d : Nat} {e : LogEntry},
      e ∈ (sendMessageLoop ok l t im att d f).entries →
      e = .noParseable ∨ e = .errorSending ∨ e = .maxRetriesNotSent := by
  intro f
  induction f with
  | zero => intro att d e h; simp [sendMessageLoop] at h
  | succ f ih =>
    intro att d e h
    unfold sendMessageLoop at h
    rw [if_neg (by simp [hb])] at h
    by_cases h2 : ok l att = true
    · rw [if_pos h2] at h
      simp only [List.mem_cons, List.not_mem_nil, or_false] at h
      subst h; tauto
    · rw [if_neg h2] at h
      by_cases h3 : f = 0
      · rw [if_pos h3] at h
        simp only [List.mem_cons, List.not_mem_nil, or_false] at h
        rcases h with h | h | h <;> subst h <;> tauto
      · rw [if_neg h3] at h
        simp only [List.cons_append, List.nil_append, List.mem_cons] at h
        rcases h with h | h | h
        · subst h; tauto
        · subst h; tauto
        · exact ih h

theorem sendFallback_matchCount {ok : Oracle} {l : Link} {t im : Option String}
    (hb : (truthy t || truthy im) = false) (c : String) (v : Nat) :
    matchCount c v (sendMessage ok l t im).entries = 0 := by
  unfold matchCount
  rw [List.countP_eq_zero]
  intro e he
  rcases sendMessageLoop_fallback_entries_mem hb he with h | h | h <;> subst h <;> simp [entryMatch]

theorem sendFallback_logBound {ok : Oracle} {l : Link} {t im : Option String}
    (hb : (truthy t || truthy im) = false) (c : String) (n : Nat) :
    logBound c n (sendMessage ok l t im).entries := by
  intro e he
  rcases sendMessageLoop_fallback_entries_mem hb he with h | h | h <;> subst h <;>
    simp [entryBelow, entryMatch]

theorem sendFail_result {ok : Oracle} {l : Link} (t im : Option String)
    (hf : ∀ a, ok l a = false) :
    (sendMessage ok l t im).sleeps = [2, 4, 8, 16] ∧
    LogEntry.maxRetriesNotSent ∈ (sendMessage ok l t im).entries ∧
    (sendMessage ok l t im).acts.length = 5 := by
  by_cases h1 : (truthy t || truthy im) = true <;>
    simp [sendMessage, sendMessageLoop, hf, h1]

/-! ## Simp facts about `entryMatch` -/

theorem entryMatch_placeholder_self (c : String) (k : Nat) :
    entryMatch c (.placeholder ⟨c, k⟩) = some k := by simp [entryMatch]

theorem entryMatch_newMessageFound_self (c : String) (k : Nat) :
    entryMatch c (.newMessageFound ⟨c, k⟩) = some k := by simp [entryMatch]

theorem entryMatch_botWorking (c c' : String) : entryMatch c (.botWorking c') = none := rfl

theorem entryMatch_cycleError (c : String) : entryMatch c .cycleError = none := rfl

theorem entryMatch_errorScraping (c : String) : entryMatch c .errorScraping = none := rfl

theorem entryMatch_maxRetriesSkipping (c : String) :
    entryMatch c .maxRetriesSkipping = none := rfl

/-! ## Lemmas about `sendMissingMessages` and the gap-fill guard -/

theorem gap_entries_match {ok : Oracle} {c c' : String} {last cur : Nat} {e : LogEntry}
    (he : e ∈ (sendMissingMessages ok c last cur).entries) {m : Nat}
    (hm : entryMatch c' e = some m) : c' = c ∧ last + 1 ≤ m ∧ m < cur := by
  unfold sendMissingMessages at he
  simp only [List.mem_flatMap] at he
  obtain ⟨k, hk, he⟩ := he
  rw [List.mem_range'_1] at hk
  rcases List.mem_cons.mp he with h | h
  · subst h
    simp only [entryMatch] at hm
    split at hm
    · rename_i hc
      have : k = m := Option.some.inj hm
      exact ⟨hc.symm, by omega, by omega⟩
    · exact absurd hm (by simp)
  · obtain ⟨hc, hn⟩ := sendEntries_match h hm
    have hc' : c = c' := hc
    have hn' : k = m := hn
    exact ⟨hc'.symm, by omega, by omega⟩

theorem gapOf_entries_match {ok : Oracle} {c c' : String} {last cur : Nat}
    {e : LogEntry} (he : e ∈ (gapOf ok c last cur).entries) {m : Nat}
    (hm : entryMatch c' e = some m) : c' = c ∧ last + 1 ≤ m ∧ m < cur := by
  unfold gapOf at he
  split at he
  · exact gap_entries_match he hm
  · simp at he

theorem gapOf_logBound (c' : String) {ok : Oracle} {c : String} {last cur n : Nat}
    (h : cur ≤ n) : logBound c' n (gapOf ok c last cur).entries := by
  intro e he
  rw [entryBelow_eq_true_iff]
  intro m hm
  have := gapOf_entries_match he hm
  omega

theorem gapOf_invs_mem {ok : Oracle} {c : String} {last cur : Nat} {l : Link}
    (h : l ∈ (gapOf ok c last cur).invs) :
    l.channel = c ∧ last + 1 ≤ l.number ∧ l.number < cur ∧ 0 < last := by
  unfold gapOf at h
  split at h
  · rename_i hcond
    unfold sendMissingMessages at h
    simp only [List.mem_map] at h
    obtain ⟨k, hk, rfl⟩ := h
    rw [List.mem_range'_1] at hk
    refine ⟨rfl, ?_, ?_, hcond.1⟩
    · show last + 1 ≤ k
      omega
    · show k < cur
      omega
  · simp at h

theorem gapCount_aux (ok : Oracle) (c : String) (v : Nat) :
    ∀ (k s : Nat),
      matchCount c v ((List.range' s k).flatMap fun j =>
        LogEntry.placeholder ⟨c, j⟩ :: (sendMessage ok ⟨c, j⟩ none none).entries) =
      if s ≤ v ∧ v < s + k then 1 else 0 := by
  intro k
  induction k with
  | zero =>
    intro s
    rw [if_neg (by omega)]
    rfl
  | succ k ih =>
    intro s
    rw [show List.range' s (k + 1) = s :: List.range' (s + 1) k from rfl,
      List.flatMap_cons, matchCount_append, matchCount_cons, ih,
      sendFallback_matchCount (by simp [truthy]), entryMatch_placeholder_self]
    simp only [Option.some.injEq]
    split_ifs <;> omega

theorem gap_matchCount (ok : Oracle) (c : String) (last cur v : Nat) :
    matchCount c v (sendMissingMessages ok c last cur).entries =
      if last + 1 ≤ v ∧ v < cur then 1 else 0 := by
  unfold sendMissingMessages
  dsimp only
  rw [gapCount_aux]
  split_ifs <;> omega

theorem gapOf_matchCount (ok : Oracle) (c : String) (last cur v : Nat) :
    matchCount c v (gapOf ok c last cur).entries =
      if 0 < last ∧ last + 1 ≤ v ∧ v < cur then 1 else 0 := by
  unfold gapOf
  split
  · rw [gap_matchCount]
    rename_i h
    split_ifs <;> omega
  · rename_i h
    rw [matchCount_nil, if_neg (by omega)]

/-! ## Characterisations of one record step of `main`'s for-loop -/

theorem processNum_skip {ok : Oracle} {c : String} {acc : CycleAcc} {cur : Nat}
    {t im : Option String}
    (hd : isMessageLogged (acc.st.log ++ (gapOf ok c acc.st.lastProcessed cur).entries)
      c cur = true) :
    processNum ok c acc cur t im =
      ⟨⟨acc.st.log ++ (gapOf ok c acc.st.lastProcessed cur).entries,
        acc.st.lastProcessed, acc.st.msgLog⟩,
        acc.temp, acc.invs ++ (gapOf ok c acc.st.lastProcessed cur).invs⟩ := by
  unfold processNum
  simp only [hd, if_true]

theorem processNum_send {ok : Oracle} {c : String} {acc : CycleAcc} {cur : Nat}
    {t im : Option String}
    (hd : isMessageLogged (acc.st.log ++ (gapOf ok c acc.st.lastProcessed cur).entries)
      c cur = false)
    (hmem : Link.mk c cur ∉ acc.st.msgLog) :
    processNum ok c acc cur t im =
      ⟨⟨(acc.st.log ++ (gapOf ok c acc.st.lastProcessed cur).entries) ++
          (LogEntry.newMessageFound ⟨c, cur⟩ :: (sendMessage ok ⟨c, cur⟩ t im).entries),
        cur, acc.st.msgLog⟩,
        acc.temp ++ [⟨c, cur⟩, ⟨c, cur⟩],
        acc.invs ++ (gapOf ok c acc.st.lastProcessed cur).invs ++ [⟨c, cur⟩]⟩ := by
  unfold processNum
  simp only [hd, Bool.false_eq_true, if_false, hmem, if_neg]

theorem processNum_seen {ok : Oracle} {c : String} {acc : CycleAcc} {cur : Nat}
    {t im : Option String}
    (hd : isMessageLogged (acc.st.log ++ (gapOf ok c acc.st.lastProcessed cur).entries)
      c cur = false)
    (hmem : Link.mk c cur ∈ acc.st.msgLog) :
    processNum ok c acc cur t im =
      ⟨⟨acc.st.log ++ (gapOf ok c acc.st.lastProcessed cur).entries, cur, acc.st.msgLog⟩,
        acc.temp ++ [⟨c, cur⟩],
        acc.invs ++ (gapOf ok c acc.st.lastProcessed cur).invs⟩ := by
  unfold processNum
  simp [hd, hmem]

/-! ## The single-writer invariant is preserved and invocations are fresh -/

theorem processNum_master {ok : Oracle} {c : String} {acc : CycleAcc} (cur : Nat)
    (t im : Option String) (hinv : AccInv c acc) :
    AccInv c (processNum ok c acc cur t im) ∧
    (∃ ext, (processNum ok c acc cur t im).st.log = acc.st.log ++ ext) ∧
    ((processNum ok c acc cur t im).st.msgLog = acc.st.msgLog) ∧
    ∀ l ∈ (processNum ok c acc cur t im).invs,
      l ∈ acc.invs ∨ ∀ n, loggedNum c n acc.st.log → n < l.number := by
  obtain ⟨⟨hlast, hmsg⟩, htemp⟩ := hinv
  by_cases hd : isMessageLogged
      (acc.st.log ++ (gapOf ok c acc.st.lastProcessed cur).entries) c cur = true
  · -- dedup skip: when the gap-fill fired this situation contradicts the
    -- invariant, because everything logged (old lines and fresh placeholders)
    -- stays strictly below `cur`; when it did not fire nothing changes.
    by_cases hg : 0 < acc.st.lastProcessed ∧ acc.st.lastProcessed + 1 < cur
    · exfalso
      have hb1 : logBound c cur acc.st.log :=
        logBound_mono (by omega) (hlast hg.1).2
      have hb2 : logBound c cur (gapOf ok c acc.st.lastProcessed cur).entries :=
        gapOf_logBound c (le_refl cur)
      have h0 : isMessageLogged
          (acc.st.log ++ (gapOf ok c acc.st.lastProcessed cur).entries) c cur = false :=
        isMessageLogged_eq_false_iff.mpr (logBound_append.mpr ⟨hb1, hb2⟩)
      rw [h0] at hd
      exact Bool.false_ne_true hd
    · have hgap : gapOf ok c acc.st.lastProcessed cur = ⟨[], []⟩ := by
        unfold gapOf
        rw [if_neg hg]
      rw [processNum_skip hd, hgap]
      refine ⟨⟨⟨?_, ?_⟩, ?_⟩, ⟨[], rfl⟩, rfl, ?_⟩
      · intro h
        simp only [List.append_nil]
        exact hlast h
      · intro l hl
        simp only [List.append_nil]
        exact hmsg l hl
      · intro l hl
        simp only [List.append_nil]
        exact htemp l hl
      · intro l hl
        simp only [List.append_nil] at hl
        exact Or.inl hl
  · rw [Bool.not_eq_true] at hd
    have hbound : logBound c cur (acc.st.log ++ (gapOf ok c acc.st.lastProcessed cur).entries) :=
      isMessageLogged_eq_false_iff.mp hd
    have hboundL : logBound c cur acc.st.log := (logBound_append.mp hbound).1
    by_cases hmem : Link.mk c cur ∈ acc.st.msgLog
    · exfalso
      have := loggedNum_lt hboundL (hmsg _ hmem).2
      simp at this
    · rw [processNum_send hd hmem]
      dsimp only
      refine ⟨⟨⟨?_, ?_⟩, ?_⟩, ⟨_, by rw [List.append_assoc]⟩, rfl, ?_⟩
      · intro _
        constructor
        · exact ⟨LogEntry.newMessageFound ⟨c, cur⟩,
            List.mem_append_right _ (List.mem_cons_self _ _),
            entryMatch_newMessageFound_self c cur⟩
        · rw [logBound_append]
          refine ⟨logBound_mono (Nat.le_succ cur) hbound, ?_⟩
          intro e he
          rcases List.mem_cons.mp he with h | h
          · subst h
            rw [entryBelow_eq_true_iff]
            intro m hm
            rw [entryMatch_newMessageFound_self] at hm
            have hcm : cur = m := Option.some.inj hm
            show m < cur + 1
            omega
          · exact sendEntries_logBound (Nat.lt_succ_self cur) e h
      · intro l hl
        obtain ⟨h1, h2⟩ := hmsg l hl
        exact ⟨h1, loggedNum_append_left _ (loggedNum_append_left _ h2)⟩
      · intro l hl
        rcases List.mem_append.mp hl with h | h
        · obtain ⟨h1, h2⟩ := htemp l h
          exact ⟨h1, loggedNum_append_left _ (loggedNum_append_left _ h2)⟩
        · have : l = Link.mk c cur := by
            rcases List.mem_cons.mp h with h' | h'
            · exact h'
            · simpa using h'
          subst this
          refine ⟨rfl, loggedNum_append_right _ ?_⟩
          exact ⟨LogEntry.newMessageFound ⟨c, cur⟩, List.mem_cons_self _ _,
            entryMatch_newMessageFound_self c cur⟩
      · intro l hl
        rcases List.mem_append.mp hl with h | h
        · rcases List.mem_append.mp h with h' | h'
          · exact Or.inl h'
          · right
            intro n hn
            obtain ⟨_, hge, _, hpos⟩ := gapOf_invs_mem h'
            have := loggedNum_lt (hlast hpos).2 hn
            omega
        · right
          intro n hn
          have hl' : l = Link.mk c cur := by simpa using h
          subst hl'
          have := loggedNum_lt hboundL hn
          exact this

theorem processBox_master {ok : Oracle} {c : String} {acc : CycleAcc} (box : TgBox)
    (hinv : AccInv c acc) :
    AccInv c (processBox ok c acc box) ∧
    (∃ ext, (processBox ok c acc box).st.log = acc.st.log ++ ext) ∧
    ((processBox ok c acc box).st.msgLog = acc.st.msgLog) ∧
    ∀ l ∈ (processBox ok c acc box).invs,
      l ∈ acc.invs ∨ ∀ n, loggedNum c n acc.st.log → n < l.number := by
  obtain ⟨lnk, t, im⟩ := box
  cases lnk with
  | none => exact ⟨hinv, ⟨[], (List.append_nil _).symm⟩, rfl, fun l hl => Or.inl hl⟩
  | some raw =>
    cases raw with
    | other s => exact ⟨hinv, ⟨[], (List.append_nil _).symm⟩, rfl, fun l hl => Or.inl hl⟩
    | canonical ch n =>
      by_cases hc : ch = c
      · subst hc
        have heq : processBox ok ch acc ⟨some (.canonical ch n), t, im⟩ =
            processNum ok ch acc n t im := by
          simp [processBox, matchNumber]
        rw [heq]
        exact processNum_master n t im hinv
      · have heq : processBox ok c acc ⟨some (.canonical ch n), t, im⟩ = acc := by
          simp [processBox, matchNumber, hc]
        rw [heq]
        exact ⟨hinv, ⟨[], (List.append_nil _).symm⟩, rfl, fun l hl => Or.inl hl⟩

theorem processBoxes_master {ok : Oracle} {c : String} (boxes : List TgBox) :
    ∀ {acc : CycleAcc}, AccInv c acc →
    AccInv c (processBoxes ok c acc boxes) ∧
    (∃ ext, (processBoxes ok c acc boxes).st.log = acc.st.log ++ ext) ∧
    ((processBoxes ok c acc boxes).st.msgLog = acc.st.msgLog) ∧
    ∀ l ∈ (processBoxes ok c acc boxes).invs,
      l ∈ acc.invs ∨ ∀ n, loggedNum c n acc.st.log → n < l.number := by
  induction boxes with
  | nil =>
    intro acc h
    exact ⟨h, ⟨[], (List.append_nil _).symm⟩, rfl, fun l hl => Or.inl hl⟩
  | cons b bs ih =>
    intro acc h
    rw [show processBoxes ok c acc (b :: bs) =
      processBoxes ok c (processBox ok c acc b) bs from rfl]
    have h1 := @processBox_master ok c acc b h
    have h2 := ih h1.1
    refine ⟨h2.1, ?_, ?_, ?_⟩
    · obtain ⟨e1, he1⟩ := h1.2.1
      obtain ⟨e2, he2⟩ := h2.2.1
      exact ⟨e1 ++ e2, by rw [he2, he1, List.append_assoc]⟩
    · rw [h2.2.2.1, h1.2.2.1]
    · intro l hl
      rcases h2.2.2.2 l hl with hin | hfresh
      · rcases h1.2.2.2 l hin with hin' | hf'
        · exact Or.inl hin'
        · exact Or.inr hf'
      · right
        intro n hn
        apply hfresh
        obtain ⟨e1, he1⟩ := h1.2.1
        rw [he1]
        exact loggedNum_append_left _ hn

theorem scrapeEntries_logBound (c : String) (n : Nat) (f : Nat) :
    logBound c n (scrapeEntries f) := by
  intro e he
  unfold scrapeEntries at he
  rcases List.mem_append.mp he with h | h
  · rw [List.eq_of_mem_replicate h]
    rfl
  · split at h
    · rw [List.mem_singleton.mp h]
      rfl
    · simp at h

theorem runCycle_master {ok : Oracle} {c : String} (inp : CycleInput)
    {s : WorkerState} (hinv : WInv c s) :
    WInv c (runCycle ok c s inp).1 ∧
    (∃ ext, (runCycle ok c s inp).1.log = s.log ++ ext) ∧
    ∀ l ∈ (runCycle ok c s inp).2, ∀ n, loggedNum c n s.log → n < l.number := by
  obtain ⟨ff, boxes, errA⟩ := inp
  have hacc : AccInv c ⟨⟨s.log ++ scrapeEntries ff, s.lastProcessed, s.msgLog⟩, [], []⟩ := by
    refine ⟨⟨?_, ?_⟩, ?_⟩
    · intro hpos
      obtain ⟨h1, h2⟩ := hinv.1 hpos
      exact ⟨loggedNum_append_left _ h1,
        logBound_append.mpr ⟨h2, scrapeEntries_logBound c _ ff⟩⟩
    · intro l hl
      obtain ⟨h1, h2⟩ := hinv.2 l hl
      exact ⟨h1, loggedNum_append_left _ h2⟩
    · intro l hl
      simp at hl
  cases errA with
  | none =>
    have h := @processBoxes_master ok c
      (if 5 ≤ ff then [] else boxes) _ hacc
    refine ⟨⟨?_, ?_⟩, ?_, ?_⟩
    · intro hpos
      obtain ⟨h1, h2⟩ := h.1.1.1 hpos
      refine ⟨loggedNum_append_left _ h1, logBound_append.mpr ⟨h2, ?_⟩⟩
      intro e he
      rw [List.mem_singleton.mp he]
      rfl
    · intro l hl
      obtain ⟨h1, h2⟩ := h.1.2 l hl
      exact ⟨h1, loggedNum_append_left _ h2⟩
    · obtain ⟨ext, hext⟩ := h.2.1
      refine ⟨scrapeEntries ff ++ ext ++ [LogEntry.botWorking c], ?_⟩
      show (processBoxes ok c _ _).st.log ++ [LogEntry.botWorking c] = _
      rw [hext]
      simp [List.append_assoc]
    · intro l hl n hn
      rcases h.2.2.2 l hl with hin | hfresh
      · simp at hin
      · exact hfresh n (loggedNum_append_left _ hn)
  | some k =>
    have h := @processBoxes_master ok c
      ((if 5 ≤ ff then [] else boxes).take k) _ hacc
    refine ⟨⟨?_, ?_⟩, ?_, ?_⟩
    · intro hpos
      obtain ⟨h1, h2⟩ := h.1.1.1 hpos
      refine ⟨loggedNum_append_left _ h1, logBound_append.mpr ⟨h2, ?_⟩⟩
      intro e he
      rw [List.mem_singleton.mp he]
      rfl
    · intro l hl
      obtain ⟨h1, h2⟩ := hinv.2 l hl
      refine ⟨h1, ?_⟩
      obtain ⟨ext, hext⟩ := h.2.1
      show loggedNum c l.number ((processBoxes ok c _ _).st.log ++ [LogEntry.cycleError])
      rw [hext]
      show loggedNum c l.number ((s.log ++ scrapeEntries ff) ++ ext ++ [LogEntry.cycleError])
      rw [List.append_assoc, List.append_assoc]
      exact loggedNum_append_left _ h2
    · obtain ⟨ext, hext⟩ := h.2.1
      refine ⟨scrapeEntries ff ++ ext ++ [LogEntry.cycleError], ?_⟩
      show (processBoxes ok c _ _).st.log ++ [LogEntry.cycleError] = _
      rw [hext]
      simp [List.append_assoc]
    · intro l hl n hn
      rcases h.2.2.2 l hl with hin | hfresh
      · simp at hin
      · exact hfresh n (loggedNum_append_left _ hn)

theorem runWorker_master {ok : Oracle} {c : String} (inputs : List CycleInput) :
    ∀ {s : WorkerState}, WInv c s →
    WInv c (runWorker ok c s inputs).1 ∧
    (∃ ext, (runWorker ok c s inputs).1.log = s.log ++ ext) ∧
    ∀ l ∈ (runWorker ok c s inputs).2, ∀ n, loggedNum c n s.log → n < l.number := by
  induction inputs with
  | nil =>
    intro s h
    exact ⟨h, ⟨[], (List.append_nil _).symm⟩, fun l hl => by simp [runWorker] at hl⟩
  | cons inp rest ih =>
    intro s h
    have h1 := @runCycle_master ok c inp s h
    have h2 := ih h1.1
    refine ⟨h2.1, ?_, ?_⟩
    · obtain ⟨e1, he1⟩ := h1.2.1
      obtain ⟨e2, he2⟩ := h2.2.1
      refine ⟨e1 ++ e2, ?_⟩
      show (runWorker ok c (runCycle ok c s inp).1 rest).1.log = _
      rw [he2, he1, List.append_assoc]
    · intro l hl n hn
      have hl' : l ∈ (runCycle ok c s inp).2 ++ (runWorker ok c (runCycle ok c s inp).1 rest).2 := hl
      rcases List.mem_append.mp hl' with hin | hin
      · exact h1.2.2 l hin n hn
      · apply h2.2.2 l hin
        obtain ⟨e1, he1⟩ := h1.2.1
        rw [he1]
        exact loggedNum_append_left _ hn

theorem freshWorker_WInv (c : String) (L : List LogEntry) : WInv c (freshWorker L) :=
  ⟨fun h => absurd h (by simp [freshWorker]), fun l hl => by simp [freshWorker] at hl⟩

theorem mem_foldl_addLinks (exist : List String) :
    ∀ (L acc : List String) (ch : String),
      (ch ∈ L ∨ ch ∈ acc) → ch ∉ exist →
      ch ∈ L.foldl (fun a c' => if c' ∈ exist ∨ c' ∈ a then a else a ++ [c']) acc := by
  intro L
  induction L with
  | nil =>
    intro acc ch h hne
    rw [List.foldl_nil]
    rcases h with h | h
    · simp at h
    · exact h
  | cons c' L ih =>
    intro acc ch h hne
    rw [List.foldl_cons]
    have hsub : ∀ x, x ∈ acc →
        x ∈ (if c' ∈ exist ∨ c' ∈ acc then acc else acc ++ [c']) := by
      intro x hx
      split
      · exact hx
      · exact List.mem_append_left _ hx
    rcases h with h | h
    · rcases List.mem_cons.mp h with h' | h'
      · subst h'
        refine ih _ ch (Or.inr ?_) hne
        split
        · rename_i hcond
          rcases hcond with hc | hc
          · exact absurd hc hne
          · exact hc
        · exact List.mem_append_right _ (by simp)
      · exact ih _ ch (Or.inl h') hne
    · exact ih _ ch (Or.inr (hsub ch h)) hne

theorem processNum_send_of_bound {ok : Oracle} {c : String} {acc : CycleAcc}
    {cur : Nat} (t im : Option String) (hb : logBound c cur acc.st.log)
    (hm : ∀ l ∈ acc.st.msgLog, l.channel = c ∧ loggedNum c l.number acc.st.log) :
    processNum ok c acc cur t im =
      ⟨⟨(acc.st.log ++ (gapOf ok c acc.st.lastProcessed cur).entries) ++
          (LogEntry.newMessageFound ⟨c, cur⟩ :: (sendMessage ok ⟨c, cur⟩ t im).entries),
        cur, acc.st.msgLog⟩,
        acc.temp ++ [⟨c, cur⟩, ⟨c, cur⟩],
        acc.invs ++ (gapOf ok c acc.st.lastProcessed cur).invs ++ [⟨c, cur⟩]⟩ := by
  have hd : isMessageLogged
      (acc.st.log ++ (gapOf ok c acc.st.lastProcessed cur).entries) c cur = false :=
    isMessageLogged_eq_false_iff.mpr
      (logBound_append.mpr ⟨hb, gapOf_logBound c (le_refl cur)⟩)
  have hmem : Link.mk c cur ∉ acc.st.msgLog := by
    intro hmemm
    have h1 := loggedNum_lt hb (hm _ hmemm).2
    have h2 : cur < cur := h1
    omega
  exact processNum_send hd hmem

theorem processBox_mkBox (ok : Oracle) (c : String) (acc : CycleAcc) (n : Nat)
    (t im : Option String) :
    processBox ok c acc (mkBox c n t im) = processNum ok c acc n t im := by
  simp [processBox, mkBox, matchNumber]

theorem entryBelow_newMessageFound (c : String) (n k : Nat) :
    entryBelow c n (.newMessageFound ⟨c, k⟩) = decide (k < n) := by
  simp [entryBelow, entryMatch]

theorem logBound_cons {c : String} {n : Nat} {e : LogEntry} {L : List LogEntry}
    (he : entryBelow c n e = true) (hL : logBound c n L) : logBound c n (e :: L) := by
  intro x hx
  rcases List.mem_cons.mp hx with h | h
  · subst h; exact he
  · exact hL x h

theorem sendBlock_logBound {ok : Oracle} (c : String) {k n : Nat}
    (t im : Option String) (h : k < n) :
    logBound c n (LogEntry.newMessageFound ⟨c, k⟩ ::
      (sendMessage ok ⟨c, k⟩ t im).entries) :=
  logBound_cons (by rw [entryBelow_newMessageFound]; simpa using h)
    (sendEntries_logBound h)

theorem sendBlock_matchCount_ne {ok : Oracle} {t im : Option String} (c : String)
    {k v : Nat} (h : v ≠ k) :
    matchCount c v (LogEntry.newMessageFound ⟨c, k⟩ ::
      (sendMessage ok ⟨c, k⟩ t im).entries) = 0 := by
  rw [matchCount_cons, sendEntries_matchCount (show v ≠ (Link.mk c k).number from h),
    entryMatch_newMessageFound_self]
  rw [if_neg (by simp [Ne.symm h])]

theorem sendBlock_matchCount_self {ok : Oracle} {t im : Option String} (c : String)
    (k : Nat) :
    1 ≤ matchCount c k (LogEntry.newMessageFound ⟨c, k⟩ ::
      (sendMessage ok ⟨c, k⟩ t im).entries) := by
  rw [matchCount_cons, entryMatch_newMessageFound_self, if_pos rfl]
  omega

theorem matchCount_botWorking (c c' : String) (v : Nat) :
    matchCount c v [.botWorking c'] = 0 := by
  rw [show ([.botWorking c'] : List LogEntry) = .botWorking c' :: [] from rfl,
    matchCount_cons, matchCount_nil, entryMatch_botWorking]
  rw [if_neg (by simp)]

/-! ## Claim C1 -/

/-- C1 counterexample: one successful delivery of a single fresh message
appends two Delivery-Log lines containing its link (the "New message found"
line and the "Sending message to Discord" line), so the Delivery Log does not
contain at most one delivery entry per message link — even though the
Forwarder was invoked exactly once for it. -/
theorem c1_two_entries_per_delivery :
    (processBox (fun _ _ => true) "ch" ⟨⟨[], 0, []⟩, [], []⟩
        (mkBox "ch" 1 (some "hi") none)).invs = [⟨"ch", 1⟩] ∧
    matchCount "ch" 1
      (processBox (fun _ _ => true) "ch" ⟨⟨[], 0, []⟩, [], []⟩
        (mkBox "ch" 1 (some "hi") none)).st.log = 2 := by
  decide

/-- C1 amended: once some Delivery-Log line contains a message link, no
worker run — over any sequence of cycles, from any state satisfying the
single-writer invariant, which includes every freshly (re)started worker —
ever invokes the Forwarder for that link again; deduplication is decided by
re-reading the log, not by in-memory state.  (The log may however hold more
than one line mentioning a delivered link: the discovery line plus one
per-attempt send line, as the counterexample shows.) -/
theorem c1_logged_never_reinvoked (ok : Oracle) (c : String) (s : WorkerState)
    (inputs : List CycleInput) (n : Nat) (hinv : WInv c s)
    (hlog : loggedNum c n s.log) :
    Link.mk c n ∉ (runWorker ok c s inputs).2 := by
  intro hmem
  have h := (runWorker_master inputs hinv).2.2 _ hmem n hlog
  have h' : n < n := h
  omega

theorem c1_logged_never_reinvoked_witness :
    WInv "ch" ⟨[.sendingMessage ⟨"ch", 2⟩], 0, []⟩ ∧
    loggedNum "ch" 2 [LogEntry.sendingMessage ⟨"ch", 2⟩] ∧
    Link.mk "ch" 2 ∉ (runWorker (fun _ _ => true) "ch"
      ⟨[.sendingMessage ⟨"ch", 2⟩], 0, []⟩
      [⟨0, [mkBox "ch" 2 none none, mkBox "ch" 4 (some "t") none], none⟩]).2 :=
  ⟨by decide, by decide,
    c1_logged_never_reinvoked _ "ch" _ _ 2 (by decide) (by decide)⟩

/-! ## Claim C10 -/

/-- C10: at supervisor startup every configured channel URL of every job that
is not already present as a log line is appended verbatim to the Delivery
Log; and a seeded message-link line `https://t.me/<c>/<num>` makes the dedup
check treat every sequence number `≤ num` of that channel as already
delivered, so a freshly started worker never forwards any of those messages. -/
theorem c10_seed_blocks_history :
    (∀ (log : List LogEntry) (jobs : List Job) (job : Job) (ch : String),
      job ∈ jobs → ch ∈ job.telegramChannels → LogEntry.seed ch ∉ log →
      LogEntry.seed ch ∈ initDisgramLog log jobs) ∧
    (∀ (ok : Oracle) (c u : String) (num : Nat) (L0 : List LogEntry)
      (inputs : List CycleInput) (m : Nat),
      seedMatch c u = some num → LogEntry.seed u ∈ L0 → m ≤ num →
      isMessageLogged L0 c m = true ∧
      Link.mk c m ∉ (runWorker ok c (freshWorker L0) inputs).2) := by
  constructor
  · intro log jobs job ch hj hch hnot
    unfold initDisgramLog
    apply List.mem_append_right
    rw [List.mem_map]
    refine ⟨ch, ?_, rfl⟩
    have hne : ch ∉ log.filterMap fun e =>
        match e with
        | LogEntry.seed u => if strStarts u "https://t.me/" then some u else none
        | _ => none := by
      intro hmem
      rw [List.mem_filterMap] at hmem
      obtain ⟨e, he, hfe⟩ := hmem
      cases e <;> simp only [] at hfe
      · rename_i u
        split at hfe
        · have : u = ch := Option.some.inj hfe
          subst this
          exact hnot he
        · exact absurd hfe (by simp)
      all_goals exact absurd hfe (by simp)
    have hmemL : ch ∈ jobs.flatMap fun j => j.telegramChannels :=
      List.mem_flatMap.mpr ⟨job, hj, hch⟩
    exact mem_foldl_addLinks _ _ _ _ (Or.inl hmemL) hne
  · intro ok c u num L0 inputs m hsm hseed hm
    have hmatch : entryMatch c (LogEntry.seed u) = some num := hsm
    constructor
    · exact isMessageLogged_eq_true_of hseed hmatch hm
    · intro hmem
      have h := (runWorker_master inputs (freshWorker_WInv c L0)).2.2 _ hmem num
        ⟨LogEntry.seed u, hseed, hmatch⟩
      have h' : num < m := h
      omega

theorem c10_seed_blocks_history_witness :
    ((⟨"j", "w", ["https://t.me/ch/50"], none, none⟩ : Job) ∈
        [(⟨"j", "w", ["https://t.me/ch/50"], none, none⟩ : Job)] ∧
      "https://t.me/ch/50" ∈
        (⟨"j", "w", ["https://t.me/ch/50"], none, none⟩ : Job).telegramChannels ∧
      LogEntry.seed "https://t.me/ch/50" ∉ ([] : List LogEntry) ∧
      LogEntry.seed "https://t.me/ch/50" ∈
        initDisgramLog [] [⟨"j", "w", ["https://t.me/ch/50"], none, none⟩]) ∧
    (seedMatch "ch" "https://t.me/ch/50" = some 50 ∧
      isMessageLogged [LogEntry.seed "https://t.me/ch/50"] "ch" 12 = true ∧
      Link.mk "ch" 12 ∉ (runWorker (fun _ _ => true) "ch"
        (freshWorker [LogEntry.seed "https://t.me/ch/50"])
        [⟨0, [mkBox "ch" 12 (some "t") none], none⟩]).2) :=
  ⟨⟨by decide, by decide, by decide,
      c10_seed_blocks_history.1 []
        [⟨"j", "w", ["https://t.me/ch/50"], none, none⟩]
        ⟨"j", "w", ["https://t.me/ch/50"], none, none⟩ "https://t.me/ch/50"
        (by decide) (by decide) (by decide)⟩,
    ⟨by decide,
      (c10_seed_blocks_history.2 (fun _ _ => true) "ch" "https://t.me/ch/50" 50
          [LogEntry.seed "https://t.me/ch/50"]
          [⟨0, [mkBox "ch" 12 (some "t") none], none⟩] 12
          (by decide) (by decide) (by decide)).1,
      (c10_seed_blocks_history.2 (fun _ _ => true) "ch" "https://t.me/ch/50" 50
          [LogEntry.seed "https://t.me/ch/50"]
          [⟨0, [mkBox "ch" 12 (some "t") none], none⟩] 12
          (by decide) (by decide) (by decide)).2⟩⟩

/-! ## Claim C3 -/

/-- C3 counterexample: after a message's five delivery attempts all fail, the
Delivery Log DOES contain entries marking that link (the discovery line and
the per-attempt "Sending message to Discord" lines were appended before the
sends), so the dedup check reports it delivered and re-processing the same
record triggers no further Forwarder invocation — the message is not sent
again when re-discovered. -/
theorem c3_failed_message_marked :
    LogEntry.maxRetriesNotSent ∈
      (processBox (fun _ _ => false) "ch" ⟨⟨[], 0, []⟩, [], []⟩
        (mkBox "ch" 1 (some "hi") none)).st.log ∧
    isMessageLogged
      (processBox (fun _ _ => false) "ch" ⟨⟨[], 0, []⟩, [], []⟩
        (mkBox "ch" 1 (some "hi") none)).st.log "ch" 1 = true ∧
    (processBox (fun _ _ => false) "ch"
        (processBox (fun _ _ => false) "ch" ⟨⟨[], 0, []⟩, [], []⟩
          (mkBox "ch" 1 (some "hi") none))
        (mkBox "ch" 1 (some "hi") none)).invs =
      (processBox (fun _ _ => false) "ch" ⟨⟨[], 0, []⟩, [], []⟩
        (mkBox "ch" 1 (some "hi") none)).invs := by
  decide

/-- C3 amended: when every delivery attempt of a fresh message fails, the
worker performs exactly 5 attempts with exponential backoff sleeps 2,4,8,16,
logs the permanent failure for this cycle and moves on (the record's number
becomes `last_processed_number`); however, because the discovery line and the
per-attempt send lines already put the link into the Delivery Log, the dedup
check afterwards reports the message as delivered, so a re-discovered copy of
the record is skipped and not sent again. -/
theorem c3_exhausted_retries (ok : Oracle) (c : String) (s : WorkerState)
    (n : Nat) (t im : Option String) (hinv : WInv c s) (hb : logBound c n s.log)
    (hf : ∀ a, ok ⟨c, n⟩ a = false) :
    (sendMessage ok ⟨c, n⟩ t im).sleeps = [2, 4, 8, 16] ∧
    (sendMessage ok ⟨c, n⟩ t im).acts.length = 5 ∧
    LogEntry.maxRetriesNotSent ∈
      (processBox ok c ⟨s, [], []⟩ (mkBox c n t im)).st.log ∧
    isMessageLogged (processBox ok c ⟨s, [], []⟩ (mkBox c n t im)).st.log c n = true ∧
    (processBox ok c ⟨s, [], []⟩ (mkBox c n t im)).st.lastProcessed = n ∧
    ∀ t' im', processBox ok c (processBox ok c ⟨s, [], []⟩ (mkBox c n t im))
        (mkBox c n t' im') = processBox ok c ⟨s, [], []⟩ (mkBox c n t im) := by
  have hstep : processBox ok c ⟨s, [], []⟩ (mkBox c n t im) =
      ⟨⟨(s.log ++ (gapOf ok c s.lastProcessed n).entries) ++
          (LogEntry.newMessageFound ⟨c, n⟩ :: (sendMessage ok ⟨c, n⟩ t im).entries),
        n, s.msgLog⟩,
        [] ++ [⟨c, n⟩, ⟨c, n⟩],
        [] ++ (gapOf ok c s.lastProcessed n).invs ++ [⟨c, n⟩]⟩ := by
    rw [processBox_mkBox]
    exact processNum_send_of_bound t im hb hinv.2
  have hnmf : loggedNum c n (processBox ok c ⟨s, [], []⟩ (mkBox c n t im)).st.log := by
    rw [hstep]
    exact loggedNum_append_right _
      ⟨LogEntry.newMessageFound ⟨c, n⟩, List.mem_cons_self _ _,
        entryMatch_newMessageFound_self c n⟩
  refine ⟨(sendFail_result t im hf).1, (sendFail_result t im hf).2.2, ?_, ?_, ?_, ?_⟩
  · rw [hstep]
    exact List.mem_append_right _ (List.mem_cons_of_mem _ (sendFail_result t im hf).2.1)
  · exact isMessageLogged_eq_true_of_loggedNum hnmf
  · rw [hstep]
  · intro t' im'
    rw [processBox_mkBox]
    have hgap : gapOf ok c
        (processBox ok c ⟨s, [], []⟩ (mkBox c n t im)).st.lastProcessed n = ⟨[], []⟩ := by
      unfold gapOf
      rw [if_neg]
      rw [hstep]
      intro hcontra
      have h2 : n + 1 < n := hcontra.2
      omega
    have hd : isMessageLogged
        ((processBox ok c ⟨s, [], []⟩ (mkBox c n t im)).st.log ++
          (gapOf ok c (processBox ok c ⟨s, [], []⟩ (mkBox c n t im)).st.lastProcessed
            n).entries) c n = true := by
      rw [hgap]
      exact isMessageLogged_eq_true_of_loggedNum
        (loggedNum_append_left _ hnmf)
    rw [processNum_skip hd, hgap]
    rw [hstep]
    simp

theorem c3_exhausted_retries_witness :
    WInv "ch" ⟨[], 0, []⟩ ∧ logBound "ch" 1 [] ∧
    ((sendMessage (fun l _ => decide (l.number ≠ 1)) ⟨"ch", 1⟩ (some "hi") none).sleeps
        = [2, 4, 8, 16] ∧
      (sendMessage (fun l _ => decide (l.number ≠ 1)) ⟨"ch", 1⟩ (some "hi") none).acts.length = 5 ∧
      LogEntry.maxRetriesNotSent ∈
        (processBox (fun l _ => decide (l.number ≠ 1)) "ch" ⟨⟨[], 0, []⟩, [], []⟩
          (mkBox "ch" 1 (some "hi") none)).st.log ∧
      isMessageLogged (processBox (fun l _ => decide (l.number ≠ 1)) "ch"
        ⟨⟨[], 0, []⟩, [], []⟩ (mkBox "ch" 1 (some "hi") none)).st.log "ch" 1 = true ∧
      (processBox (fun l _ => decide (l.number ≠ 1)) "ch" ⟨⟨[], 0, []⟩, [], []⟩
        (mkBox "ch" 1 (some "hi") none)).st.lastProcessed = 1 ∧
      ∀ t' im', processBox (fun l _ => decide (l.number ≠ 1)) "ch"
          (processBox (fun l _ => decide (l.number ≠ 1)) "ch" ⟨⟨[], 0, []⟩, [], []⟩
            (mkBox "ch" 1 (some "hi") none))
          (mkBox "ch" 1 t' im') =
        processBox (fun l _ => decide (l.number ≠ 1)) "ch" ⟨⟨[], 0, []⟩, [], []⟩
          (mkBox "ch" 1 (some "hi") none)) :=
  ⟨by decide, by decide,
    c3_exhausted_retries (fun l _ => decide (l.number ≠ 1)) "ch" ⟨[], 0, []⟩ 1
      (some "hi") none (by decide) (by decide) (fun _ => rfl)⟩

/-! ## Claim C5 -/

theorem sendFallbackLoop_acts {ok : Oracle} {l : Link} :
    ∀ (f att d : Nat), 0 < f →
      (sendMessageLoop ok l none none att d f).acts ≠ [] ∧
      (∀ a ∈ (sendMessageLoop ok l none none att d f).acts,
        a = SendAction.fallbackPost l) ∧
      LogEntry.noParseable ∈ (sendMessageLoop ok l none none att d f).entries := by
  intro f
  induction f with
  | zero => intro att d h; omega
  | succ f ih =>
    intro att d _
    unfold sendMessageLoop
    rw [if_neg (by simp [truthy])]
    by_cases h2 : ok l att = true
    · rw [if_pos h2]
      exact ⟨by simp, by simp, by simp⟩
    · rw [if_neg h2]
      by_cases h3 : f = 0
      · rw [if_pos h3]
        exact ⟨by simp, by simp, by simp⟩
      · rw [if_neg h3]
        have hih := ih (att + 1) (d * 2) (by omega)
        refine ⟨by simp, ?_, by simp⟩
        intro a ha
        rcases List.mem_cons.mp ha with h | h
        · exact h
        · exact hih.2.1 a h

/-- C5: for every detected message record from which neither text nor image
could be extracted, the Forwarder attempts only the minimal fallback post —
which links back to the source message — and logs that the message could not
be parsed; the record is never silently dropped. -/
theorem c5_fallback_never_drops (ok : Oracle) (l : Link) :
    (sendMessage ok l none none).acts ≠ [] ∧
    (∀ a ∈ (sendMessage ok l none none).acts, a = SendAction.fallbackPost l) ∧
    LogEntry.noParseable ∈ (sendMessage ok l none none).entries :=
  sendFallbackLoop_acts 5 0 2 (by omega)

/-! ## Claim C6 -/

/-- C6: a message every delivery attempt of which is rejected by the
destination still advances `last_processed_number` to its sequence number
after the exhausted send, and the worker goes on to process the subsequent
record of the same cycle, which is forwarded and advances the counter in
turn. -/
theorem c6_failed_send_advances (ok : Oracle) (c : String) (s : WorkerState)
    (n m : Nat) (t1 im1 t2 im2 : Option String) (hinv : WInv c s)
    (hb : logBound c n s.log) (hf : ∀ a, ok ⟨c, n⟩ a = false) (hnm : n < m) :
    (processBox ok c ⟨s, [], []⟩ (mkBox c n t1 im1)).st.lastProcessed = n ∧
    LogEntry.maxRetriesNotSent ∈
      (processBox ok c ⟨s, [], []⟩ (mkBox c n t1 im1)).st.log ∧
    (processBoxes ok c ⟨s, [], []⟩
      [mkBox c n t1 im1, mkBox c m t2 im2]).st.lastProcessed = m ∧
    Link.mk c m ∈ (processBoxes ok c ⟨s, [], []⟩
      [mkBox c n t1 im1, mkBox c m t2 im2]).invs := by
  have hstep : processBox ok c ⟨s, [], []⟩ (mkBox c n t1 im1) =
      ⟨⟨(s.log ++ (gapOf ok c s.lastProcessed n).entries) ++
          (LogEntry.newMessageFound ⟨c, n⟩ :: (sendMessage ok ⟨c, n⟩ t1 im1).entries),
        n, s.msgLog⟩,
        [] ++ [⟨c, n⟩, ⟨c, n⟩],
        [] ++ (gapOf ok c s.lastProcessed n).invs ++ [⟨c, n⟩]⟩ := by
    rw [processBox_mkBox]
    exact processNum_send_of_bound t1 im1 hb hinv.2
  have hb1 : logBound c m (processBox ok c ⟨s, [], []⟩ (mkBox c n t1 im1)).st.log := by
    rw [hstep]
    refine logBound_append.mpr ⟨logBound_append.mpr
      ⟨logBound_mono (by omega) hb, gapOf_logBound c (by omega)⟩, ?_⟩
    exact sendBlock_logBound c t1 im1 hnm
  have hm1 : ∀ l ∈ (processBox ok c ⟨s, [], []⟩ (mkBox c n t1 im1)).st.msgLog,
      l.channel = c ∧
        loggedNum c l.number (processBox ok c ⟨s, [], []⟩ (mkBox c n t1 im1)).st.log := by
    rw [hstep]
    intro l hl
    obtain ⟨h1, h2⟩ := hinv.2 l hl
    exact ⟨h1, loggedNum_append_left _ (loggedNum_append_left _ h2)⟩
  have hstep2 : processBox ok c (processBox ok c ⟨s, [], []⟩ (mkBox c n t1 im1))
      (mkBox c m t2 im2) =
      ⟨⟨((processBox ok c ⟨s, [], []⟩ (mkBox c n t1 im1)).st.log ++
          (gapOf ok c (processBox ok c ⟨s, [], []⟩
            (mkBox c n t1 im1)).st.lastProcessed m).entries) ++
          (LogEntry.newMessageFound ⟨c, m⟩ :: (sendMessage ok ⟨c, m⟩ t2 im2).entries),
        m, (processBox ok c ⟨s, [], []⟩ (mkBox c n t1 im1)).st.msgLog⟩,
        (processBox ok c ⟨s, [], []⟩ (mkBox c n t1 im1)).temp ++ [⟨c, m⟩, ⟨c, m⟩],
        (processBox ok c ⟨s, [], []⟩ (mkBox c n t1 im1)).invs ++
          (gapOf ok c (processBox ok c ⟨s, [], []⟩
            (mkBox c n t1 im1)).st.lastProcessed m).invs ++ [⟨c, m⟩]⟩ := by
    rw [processBox_mkBox]
    exact processNum_send_of_bound t2 im2 hb1 hm1
  have hpb2 : processBoxes ok c ⟨s, [], []⟩ [mkBox c n t1 im1, mkBox c m t2 im2] =
      processBox ok c (processBox ok c ⟨s, [], []⟩ (mkBox c n t1 im1))
        (mkBox c m t2 im2) := rfl
  refine ⟨by rw [hstep], ?_, ?_, ?_⟩
  · rw [hstep]
    exact List.mem_append_right _
      (List.mem_cons_of_mem _ (sendFail_result t1 im1 hf).2.1)
  · rw [hpb2, hstep2]
  · rw [hpb2, hstep2]
    exact List.mem_append_right _ (by simp)

theorem c6_failed_send_advances_witness :
    WInv "ch" ⟨[], 0, []⟩ ∧ logBound "ch" 1 [] ∧ 1 < 2 ∧
    ((processBox (fun l _ => decide (l.number ≠ 1)) "ch" ⟨⟨[], 0, []⟩, [], []⟩
        (mkBox "ch" 1 (some "a") none)).st.lastProcessed = 1 ∧
      LogEntry.maxRetriesNotSent ∈
        (processBox (fun l _ => decide (l.number ≠ 1)) "ch" ⟨⟨[], 0, []⟩, [], []⟩
          (mkBox "ch" 1 (some "a") none)).st.log ∧
      (processBoxes (fun l _ => decide (l.number ≠ 1)) "ch" ⟨⟨[], 0, []⟩, [], []⟩
        [mkBox "ch" 1 (some "a") none, mkBox "ch" 2 (some "b") none]).st.lastProcessed = 2 ∧
      Link.mk "ch" 2 ∈ (processBoxes (fun l _ => decide (l.number ≠ 1)) "ch"
        ⟨⟨[], 0, []⟩, [], []⟩
        [mkBox "ch" 1 (some "a") none, mkBox "ch" 2 (some "b") none]).invs) :=
  ⟨by decide, by decide, by decide,
    c6_failed_send_advances (fun l _ => decide (l.number ≠ 1)) "ch" ⟨[], 0, []⟩ 1 2
      (some "a") none (some "b") none (by decide) (by decide) (fun _ => rfl)
      (by decide)⟩

/-! ## Claim C4 -/

/-- C4: when one cycle's scrape window carries sequence numbers N, N+1 and
N+3 (N+2 absent) and the worker continues from a known positive
`last_processed_number` below N, the cycle ends with the Delivery Log
containing exactly one entry for N+2 — the synthesized placeholder line —
and that entry precedes every entry for N+3. -/
theorem c4_placeholder_exactly_once (ok : Oracle) (c : String) (s : WorkerState)
    (N : Nat) (t1 im1 t2 im2 t3 im3 : Option String) (hinv : WInv c s)
    (hpos : 0 < s.lastProcessed) (hlt : s.lastProcessed < N) :
    ∃ l1 l2,
      (runCycle ok c s ⟨0, [mkBox c N t1 im1, mkBox c (N + 1) t2 im2,
        mkBox c (N + 3) t3 im3], none⟩).1.log = l1 ++ l2 ∧
      matchCount c (N + 2) l1 = 1 ∧ matchCount c (N + 2) l2 = 0 ∧
      matchCount c (N + 3) l1 = 0 ∧ 1 ≤ matchCount c (N + 3) l2 := by
  have hbL : logBound c (s.lastProcessed + 1) s.log := (hinv.1 hpos).2
  -- step 1: the record with number N is fresh and gets sent
  have hb0 : logBound c N ((s.log ++ scrapeEntries 0 : List LogEntry)) :=
    logBound_append.mpr ⟨logBound_mono (by omega) hbL, scrapeEntries_logBound c N 0⟩
  have hm0 : ∀ l ∈ s.msgLog, l.channel = c ∧
      loggedNum c l.number ((s.log ++ scrapeEntries 0 : List LogEntry)) := by
    intro l hl
    obtain ⟨h1, h2⟩ := hinv.2 l hl
    exact ⟨h1, loggedNum_append_left _ h2⟩
  have hstep1 : processBox ok c
      ⟨⟨s.log ++ scrapeEntries 0, s.lastProcessed, s.msgLog⟩, [], []⟩
      (mkBox c N t1 im1) =
      ⟨⟨((s.log ++ scrapeEntries 0) ++ (gapOf ok c s.lastProcessed N).entries) ++
          (LogEntry.newMessageFound ⟨c, N⟩ :: (sendMessage ok ⟨c, N⟩ t1 im1).entries),
        N, s.msgLog⟩,
        [] ++ [⟨c, N⟩, ⟨c, N⟩],
        [] ++ (gapOf ok c s.lastProcessed N).invs ++ [⟨c, N⟩]⟩ := by
    rw [processBox_mkBox]
    exact processNum_send_of_bound t1 im1 hb0 hm0
  set L1 : List LogEntry :=
    ((s.log ++ scrapeEntries 0) ++ (gapOf ok c s.lastProcessed N).entries) ++
      (LogEntry.newMessageFound ⟨c, N⟩ :: (sendMessage ok ⟨c, N⟩ t1 im1).entries)
    with hL1def
  -- step 2: the record with number N + 1 is fresh and gets sent
  have hb1 : logBound c (N + 1) L1 := by
    rw [hL1def]
    refine logBound_append.mpr ⟨logBound_append.mpr
      ⟨logBound_append.mpr ⟨logBound_mono (by omega) hbL,
        scrapeEntries_logBound c (N + 1) 0⟩, gapOf_logBound c (by omega)⟩, ?_⟩
    exact sendBlock_logBound c t1 im1 (by omega)
  have hm1 : ∀ l ∈ s.msgLog, l.channel = c ∧ loggedNum c l.number L1 := by
    intro l hl
    obtain ⟨h1, h2⟩ := hinv.2 l hl
    rw [hL1def]
    exact ⟨h1, loggedNum_append_left _ (loggedNum_append_left _
      (loggedNum_append_left _ h2))⟩
  have hstep2 : processBox ok c ⟨⟨L1, N, s.msgLog⟩, [] ++ [⟨c, N⟩, ⟨c, N⟩],
      [] ++ (gapOf ok c s.lastProcessed N).invs ++ [⟨c, N⟩]⟩
      (mkBox c (N + 1) t2 im2) =
      ⟨⟨(L1 ++ (gapOf ok c N (N + 1)).entries) ++
          (LogEntry.newMessageFound ⟨c, N + 1⟩ ::
            (sendMessage ok ⟨c, N + 1⟩ t2 im2).entries),
        N + 1, s.msgLog⟩,
        ([] ++ [⟨c, N⟩, ⟨c, N⟩]) ++ [⟨c, N + 1⟩, ⟨c, N + 1⟩],
        ([] ++ (gapOf ok c s.lastProcessed N).invs ++ [⟨c, N⟩]) ++
          (gapOf ok c N (N + 1)).invs ++ [⟨c, N + 1⟩]⟩ := by
    rw [processBox_mkBox]
    exact processNum_send_of_bound t2 im2 hb1 hm1
  set L2 : List LogEntry :=
    (L1 ++ (gapOf ok c N (N + 1)).entries) ++
      (LogEntry.newMessageFound ⟨c, N + 1⟩ ::
        (sendMessage ok ⟨c, N + 1⟩ t2 im2).entries)
    with hL2def
  -- step 3: the record with number N + 3 first backfills N + 2, then is sent
  have hb2' : logBound c (N + 2) L2 := by
    rw [hL2def]
    refine logBound_append.mpr ⟨logBound_append.mpr
      ⟨logBound_mono (by omega) hb1, gapOf_logBound c (by omega)⟩, ?_⟩
    exact sendBlock_logBound c t2 im2 (by omega)
  have hm2 : ∀ l ∈ s.msgLog, l.channel = c ∧ loggedNum c l.number L2 := by
    intro l hl
    obtain ⟨h1, h2⟩ := hm1 l hl
    rw [hL2def]
    exact ⟨h1, loggedNum_append_left _ (loggedNum_append_left _ h2)⟩
  have hstep3 : processBox ok c ⟨⟨L2, N + 1, s.msgLog⟩,
      ([] ++ [⟨c, N⟩, ⟨c, N⟩]) ++ [⟨c, N + 1⟩, ⟨c, N + 1⟩],
      ([] ++ (gapOf ok c s.lastProcessed N).invs ++ [⟨c, N⟩]) ++
        (gapOf ok c N (N + 1)).invs ++ [⟨c, N + 1⟩]⟩
      (mkBox c (N + 3) t3 im3) =
      ⟨⟨(L2 ++ (gapOf ok c (N + 1) (N + 3)).entries) ++
          (LogEntry.newMessageFound ⟨c, N + 3⟩ ::
            (sendMessage ok ⟨c, N + 3⟩ t3 im3).entries),
        N + 3, s.msgLog⟩,
        (([] ++ [⟨c, N⟩, ⟨c, N⟩]) ++ [⟨c, N + 1⟩, ⟨c, N + 1⟩]) ++ [⟨c, N + 3⟩, ⟨c, N + 3⟩],
        (([] ++ (gapOf ok c s.lastProcessed N).invs ++ [⟨c, N⟩]) ++
          (gapOf ok c N (N + 1)).invs ++ [⟨c, N + 1⟩]) ++
          (gapOf ok c (N + 1) (N + 3)).invs ++ [⟨c, N + 3⟩]⟩ := by
    rw [processBox_mkBox]
    exact processNum_send_of_bound t3 im3 (logBound_mono (by omega) hb2') hm2
  have hfin : (runCycle ok c s ⟨0, [mkBox c N t1 im1, mkBox c (N + 1) t2 im2,
      mkBox c (N + 3) t3 im3], none⟩).1.log =
      (processBox ok c (processBox ok c (processBox ok c
        ⟨⟨s.log ++ scrapeEntries 0, s.lastProcessed, s.msgLog⟩, [], []⟩
        (mkBox c N t1 im1)) (mkBox c (N + 1) t2 im2))
        (mkBox c (N + 3) t3 im3)).st.log ++ [LogEntry.botWorking c] := rfl
  rw [hstep1, hstep2, hstep3] at hfin
  refine ⟨L2 ++ (gapOf ok c (N + 1) (N + 3)).entries,
    (LogEntry.newMessageFound ⟨c, N + 3⟩ ::
      (sendMessage ok ⟨c, N + 3⟩ t3 im3).entries) ++ [LogEntry.botWorking c],
    ?_, ?_, ?_, ?_, ?_⟩
  · rw [hfin]
    simp [List.append_assoc]
  · rw [matchCount_append, gapOf_matchCount,
      matchCount_eq_zero_of_logBound hb2' (by omega), if_pos (by omega)]
  · rw [matchCount_append, sendBlock_matchCount_ne c (by omega),
      matchCount_botWorking]
  · rw [matchCount_append, gapOf_matchCount,
      matchCount_eq_zero_of_logBound hb2' (by omega), if_neg (by omega)]
  · rw [matchCount_append, matchCount_botWorking]
    have := @sendBlock_matchCount_self ok t3 im3 c (N + 3)
    omega

theorem c4_placeholder_exactly_once_witness :
    WInv "ch" ⟨[.newMessageFound ⟨"ch", 1⟩], 1, []⟩ ∧
    0 < (⟨[.newMessageFound ⟨"ch", 1⟩], 1, []⟩ : WorkerState).lastProcessed ∧
    (⟨[.newMessageFound ⟨"ch", 1⟩], 1, []⟩ : WorkerState).lastProcessed < 2 ∧
    (∃ l1 l2,
      (runCycle (fun _ _ => true) "ch" ⟨[.newMessageFound ⟨"ch", 1⟩], 1, []⟩
        ⟨0, [mkBox "ch" 2 (some "a") none, mkBox "ch" 3 (some "b") none,
          mkBox "ch" 5 (some "d") none], none⟩).1.log = l1 ++ l2 ∧
      matchCount "ch" 4 l1 = 1 ∧ matchCount "ch" 4 l2 = 0 ∧
      matchCount "ch" 5 l1 = 0 ∧ 1 ≤ matchCount "ch" 5 l2) :=
  ⟨by decide, by decide, by decide,
    c4_placeholder_exactly_once (fun _ _ => true) "ch"
      ⟨[.newMessageFound ⟨"ch", 1⟩], 1, []⟩ 2 (some "a") none (some "b") none
      (some "d") none (by decide) (by decide) (by decide)⟩

/-! ## Claim C9 -/

/-- C9: the worker loop has no exit path of its own: after any cycle —
including one whose body raises an exception after any number of records —
the loop simply continues with the next cycle, and an erroring cycle logs the
error line at the outermost boundary while leaving `msg_log` untouched. -/
theorem c9_loop_never_exits (ok : Oracle) (c : String) (s : WorkerState)
    (inp : CycleInput) (rest : List CycleInput) :
    (runWorker ok c s (inp :: rest)).1 = (runWorker ok c (runCycle ok c s inp).1 rest).1 ∧
    (inp.errAfter.isSome = true →
      LogEntry.cycleError ∈ (runCycle ok c s inp).1.log ∧
      (runCycle ok c s inp).1.msgLog = s.msgLog) := by
  constructor
  · rfl
  · intro hsome
    obtain ⟨ff, boxes, errA⟩ := inp
    cases errA with
    | none => simp at hsome
    | some k =>
      constructor
      · exact List.mem_append_right _ (by simp)
      · rfl

theorem c9_loop_never_exits_witness :
    (⟨0, [], some 0⟩ : CycleInput).errAfter.isSome = true ∧
    (runWorker (fun _ _ => true) "ch" ⟨[], 0, []⟩
        ((⟨0, [], some 0⟩ : CycleInput) :: [])).1 =
      (runWorker (fun _ _ => true) "ch"
        (runCycle (fun _ _ => true) "ch" ⟨[], 0, []⟩ ⟨0, [], some 0⟩).1 []).1 ∧
    LogEntry.cycleError ∈
      (runCycle (fun _ _ => true) "ch" ⟨[], 0, []⟩ ⟨0, [], some 0⟩).1.log ∧
    (runCycle (fun _ _ => true) "ch" ⟨[], 0, []⟩ ⟨0, [], some 0⟩).1.msgLog =
      (⟨[], 0, []⟩ : WorkerState).msgLog :=
  ⟨by decide,
    (c9_loop_never_exits (fun _ _ => true) "ch" ⟨[], 0, []⟩ ⟨0, [], some 0⟩ []).1,
    ((c9_loop_never_exits (fun _ _ => true) "ch" ⟨[], 0, []⟩ ⟨0, [], some 0⟩ []).2
      (by decide)).1,
    ((c9_loop_never_exits (fun _ _ => true) "ch" ⟨[], 0, []⟩ ⟨0, [], some 0⟩ []).2
      (by decide)).2⟩

/-! ## Claim C2 -/

/-- C2: `start_job_processes` does hand each worker the four positional
arguments, but webhook.py's own argument validation accepts exactly one
positional argument (`len(sys.argv) != 2` exits with status 1), so a worker
spawned with the four arguments terminates at argument validation instead of
entering its forwarding loop — main.py and webhook.py contradict each other. -/
theorem c2_spawned_worker_rejected (job : Job) (ch : String) :
    (startScriptArgs job ch).2.length = 4 ∧
    webhookAccepts ("webhook.py" :: (startScriptArgs job ch).2) = false := by
  unfold startScriptArgs webhookAccepts
  split <;> simp

/-! ## Claim C7 -/

/-- C7 counterexample: with one of two tracked processes dead (so
alive_count ≠ total_count after the sweep — the dead one sits past the job's
channel list and is not respawned) and a stale Delivery Log, the supervisor
still performs the fleet-wide restart; the claim's "otherwise no fleet-wide
restart occurs" (requiring alive_count == total_count) is false on the code,
which only checks staleness and alive_count > 0. -/
theorem c7_restart_without_full_health :
    aliveCount (superviseJobs [⟨"j", "w", ["https://t.me/a"], none, none⟩] 5
        [("j", [⟨"webhook.py", ["a", "w", "", "j"], 0, true⟩,
                ⟨"webhook.py", ["b", "w", "", "j"], 1, false⟩])]) ≠
      totalCount (superviseJobs [⟨"j", "w", ["https://t.me/a"], none, none⟩] 5
        [("j", [⟨"webhook.py", ["a", "w", "", "j"], 0, true⟩,
                ⟨"webhook.py", ["b", "w", "", "j"], 1, false⟩])]) ∧
    (superviseStep [⟨"j", "w", ["https://t.me/a"], none, none⟩] 5
        [("j", [⟨"webhook.py", ["a", "w", "", "j"], 0, true⟩,
                ⟨"webhook.py", ["b", "w", "", "j"], 1, false⟩])] (some 10)).2 = true := by
  decide

theorem start_bot_eq_map (pid0 : Nat) :
    ∀ (registry : List Job) (acc : List (String × List Proc)),
      (registry.map Job.jobName).Nodup →
      (∀ j ∈ registry, j.jobName ∉ acc.map Prod.fst) →
      registry.foldl (fun tbl job => startJobProcesses tbl job pid0) acc =
        acc ++ registry.map fun j => (j.jobName, startJobProcs j pid0) := by
  intro registry
  induction registry with
  | nil => intro acc _ _; simp
  | cons j js ih =>
    intro acc hnodup hdisj
    rw [List.foldl_cons, startJobProcesses, if_neg (hdisj j (by simp))]
    rw [List.map_cons, List.nodup_cons] at hnodup
    rw [ih (acc ++ [(j.jobName, startJobProcs j pid0)]) hnodup.2 ?_]
    · simp
    · intro j' hj'
      rw [List.map_append, List.mem_append]
      rintro (h | h)
      · exact hdisj j' (List.mem_cons_of_mem _ hj') h
      · simp only [List.map_cons, List.map_nil, List.mem_singleton] at h
        exact hnodup.1 (h ▸ List.mem_map_of_mem Job.jobName hj')

/-- C7 amended: the fleet-wide zombie restart fires exactly when the Delivery
Log is stale or missing while at least one tracked process is alive after the
per-job sweep — the code does not additionally require
alive_count == total_count — and when it fires, the table is rebuilt by
running `start_job_processes` exactly once per registry job, spawning one
fresh process per channel. -/
theorem c7_zombie_restart (registry : List Job) (pid0 : Nat)
    (table : List (String × List Proc)) (mtimeAge : Option Nat) :
    ((superviseStep registry pid0 table mtimeAge).2 = true ↔
      (check_log_freshness mtimeAge = false ∧
        0 < aliveCount (superviseJobs registry pid0 table))) ∧
    ((registry.map Job.jobName).Nodup →
      (superviseStep registry pid0 table mtimeAge).2 = true →
      (superviseStep registry pid0 table mtimeAge).1 =
        registry.map fun j => (j.jobName, startJobProcs j pid0)) := by
  have hcases : ∀ b : Bool, (superviseStep registry pid0 table mtimeAge).2 = b →
      b = (!check_log_freshness mtimeAge &&
        decide (0 < aliveCount (superviseJobs registry pid0 table))) := by
    intro b hb
    unfold superviseStep at hb
    by_cases hcond : (!check_log_freshness mtimeAge &&
        decide (0 < aliveCount (superviseJobs registry pid0 table))) = true
    · rw [if_pos hcond] at hb
      rw [hcond, ← hb]
    · rw [if_neg hcond] at hb
      rw [Bool.not_eq_true] at hcond
      rw [hcond, ← hb]
  constructor
  · constructor
    · intro h
      have := (hcases true h).symm
      rw [Bool.and_eq_true, Bool.not_eq_true', decide_eq_true_iff] at this
      exact this
    · intro ⟨h1, h2⟩
      unfold superviseStep
      rw [if_pos (by rw [h1]; simpa using h2)]
  · intro hnodup hres
    have hcond := (hcases true hres).symm
    unfold superviseStep
    rw [if_pos hcond]
    show start_bot_processes registry pid0 = _
    unfold start_bot_processes
    rw [start_bot_eq_map pid0 registry [] hnodup (by simp)]
    simp

theorem c7_zombie_restart_witness :
    (([⟨"j1", "w", ["https://t.me/a", "https://t.me/b"], none, none⟩] : List Job).map
      Job.jobName).Nodup ∧
    (superviseStep [⟨"j1", "w", ["https://t.me/a", "https://t.me/b"], none, none⟩] 3
      [("j1", [⟨"webhook.py", ["a", "w", "", "j1"], 0, true⟩])] none).2 = true ∧
    (superviseStep [⟨"j1", "w", ["https://t.me/a", "https://t.me/b"], none, none⟩] 3
      [("j1", [⟨"webhook.py", ["a", "w", "", "j1"], 0, true⟩])] none).1 =
      ([⟨"j1", "w", ["https://t.me/a", "https://t.me/b"], none, none⟩] : List Job).map
        (fun j => (j.jobName, startJobProcs j 3)) :=
  ⟨by decide, by decide,
    (c7_zombie_restart [⟨"j1", "w", ["https://t.me/a", "https://t.me/b"], none, none⟩] 3
      [("j1", [⟨"webhook.py", ["a", "w", "", "j1"], 0, true⟩])] none).2
      (by decide) (by decide)⟩

/-! ## Claim C8 -/

/-- C8 counterexample: for a job whose single channel is the message link
https://t.me/ch/123, the original spawn passes the full link as the channel
parameter, but the sweep's respawn passes only the extracted channel name
"ch": the dead process is NOT replaced with the same parameters as the
original. -/
theorem c8_respawn_differs :
    (startJobProcs ⟨"j", "w", ["https://t.me/ch/123"], none, none⟩ 0).get? 0 =
      some ⟨"webhook.py", ["https://t.me/ch/123", "w", "", "j"], 0, true⟩ ∧
    (sweepGo ⟨"j", "w", ["https://t.me/ch/123"], none, none⟩ 7 0
        [⟨"webhook.py", ["https://t.me/ch/123", "w", "", "j"], 0, false⟩]).get? 0 =
      some ⟨"webhook.py", ["ch", "w", "", "j"], 7, true⟩ ∧
    (["ch", "w", "", "j"] : List String) ≠ ["https://t.me/ch/123", "w", "", "j"] := by
  decide

theorem sweepGo_length (job : Job) (pid0 : Nat) :
    ∀ (j : Nat) (ps : List Proc), (sweepGo job pid0 j ps).length = ps.length := by
  intro j ps
  induction ps generalizing j with
  | nil => rfl
  | cons p ps ih => simp [sweepGo, ih]

theorem sweepGo_get? (job : Job) (pid0 : Nat) :
    ∀ (ps : List Proc) (j i : Nat),
      (sweepGo job pid0 j ps).get? i = (ps.get? i).map (sweepOne job pid0 (j + i)) := by
  intro ps
  induction ps with
  | nil => intro j i; simp [sweepGo]
  | cons p ps ih =>
    intro j i
    cases i with
    | zero => simp [sweepGo]
    | succ i =>
      show (sweepGo job pid0 (j + 1) ps).get? i = _
      rw [ih (j + 1) i, show j + 1 + i = j + (i + 1) from by omega]
      rfl

/-- C8 amended: the liveness sweep rewrites the job's process list pointwise,
in place: an alive process keeps its exact table entry (same handle,
untouched); a dead process whose index is within the job's channel list is
replaced at that index by a respawn that uses the extracted channel name of
the channel at the same index — which equals the original spawn parameter
for bare channel URLs but not for message-link channels. -/
theorem c8_sweep_in_place (job : Job) (pid0 : Nat) (ps : List Proc) :
    (sweepGo job pid0 0 ps).length = ps.length ∧
    ∀ i p, ps.get? i = some p →
      (p.alive = true → (sweepGo job pid0 0 ps).get? i = some p) ∧
      (p.alive = false → i < job.telegramChannels.length →
        (sweepGo job pid0 0 ps).get? i =
          some ⟨(respawnScriptArgs job (job.telegramChannels.getD i "")).1,
            (respawnScriptArgs job (job.telegramChannels.getD i "")).2,
            pid0 + i, true⟩) := by
  refine ⟨sweepGo_length job pid0 0 ps, ?_⟩
  intro i p hp
  constructor
  · intro ha
    rw [sweepGo_get? job pid0 ps 0 i, hp]
    simp [sweepOne, ha]
  · intro hd hi
    rw [sweepGo_get? job pid0 ps 0 i, hp]
    simp [sweepOne, hd, hi]

theorem c8_sweep_in_place_witness :
    (sweepGo ⟨"j", "w", ["https://t.me/a", "https://t.me/b"], none, none⟩ 7 0
      [⟨"webhook.py", ["a", "w", "", "j"], 0, false⟩,
        ⟨"webhook.py", ["b", "w", "", "j"], 1, true⟩]).length = 2 ∧
    (sweepGo ⟨"j", "w", ["https://t.me/a", "https://t.me/b"], none, none⟩ 7 0
      [⟨"webhook.py", ["a", "w", "", "j"], 0, false⟩,
        ⟨"webhook.py", ["b", "w", "", "j"], 1, true⟩]).get? 1 =
      some ⟨"webhook.py", ["b", "w", "", "j"], 1, true⟩ ∧
    (sweepGo ⟨"j", "w", ["https://t.me/a", "https://t.me/b"], none, none⟩ 7 0
      [⟨"webhook.py", ["a", "w", "", "j"], 0, false⟩,
        ⟨"webhook.py", ["b", "w", "", "j"], 1, true⟩]).get? 0 =
      some ⟨"webhook.py", ["a", "w", "", "j"], 7, true⟩ :=
  ⟨(c8_sweep_in_place ⟨"j", "w", ["https://t.me/a", "https://t.me/b"], none, none⟩ 7
      [⟨"webhook.py", ["a", "w", "", "j"], 0, false⟩,
        ⟨"webhook.py", ["b", "w", "", "j"], 1, true⟩]).1,
    ((c8_sweep_in_place ⟨"j", "w", ["https://t.me/a", "https://t.me/b"], none, none⟩ 7
      [⟨"webhook.py", ["a", "w", "", "j"], 0, false⟩,
        ⟨"webhook.py", ["b", "w", "", "j"], 1, true⟩]).2 1
        ⟨"webhook.py", ["b", "w", "", "j"], 1, true⟩ rfl).1 rfl,
    ((c8_sweep_in_place ⟨"j", "w", ["https://t.me/a", "https://t.me/b"], none, none⟩ 7
      [⟨"webhook.py", ["a", "w", "", "j"], 0, false⟩,
        ⟨"webhook.py", ["b", "w", "", "j"], 1, true⟩]).2 0
        ⟨"webhook.py", ["a", "w", "", "j"], 0, false⟩ rfl).2 rfl (by decide)⟩

end Disgram
